import Mathlib

/-!
Verification of the reliable-UDP file-transfer implementation
(`udp_receiver.c`, `udp_sender.c`): a shallow embedding of the two main
loops and proofs about the protocol state machines.

Machine integers are modelled as `Nat` with an explicit `% 2^w` where the
C code's fixed-width arithmetic can wrap.  A received datagram is a list of
bytes; because both C programs read header-declared payload lengths out of
a reused receive buffer without checking them against the number of bytes
actually received, every step function also takes a `stale` function giving
the bytes that were left in the buffer beyond the fresh datagram.
-/

/-- Big-endian decoding of two bytes (`ntohs`). -/
def be16 (a b : Nat) : Nat := a * 256 + b

/-- Big-endian decoding of four bytes (`ntohl`). -/
def be32 (a b c d : Nat) : Nat := ((a * 256 + b) * 256 + c) * 256 + d

/-- Byte `i` of the receive buffer after a datagram `d` has been written to
its front: positions below `d.length` hold the fresh datagram, positions at
or above it still hold whatever the buffer held before (`stale`). -/
def byteAt (d : List Nat) (stale : Nat → Nat) (i : Nat) : Nat :=
  d.getD i (stale i)

/-- Packet type tag of a datagram (byte 0; `PKT_DATA=1, PKT_START=2,
PKT_END=3, PKT_ACK=16`). -/
def dgType (d : List Nat) : Nat := d.getD 0 0

/-- Sequence-number field of a datagram (bytes 1..4, big endian). -/
def dgSeq (d : List Nat) : Nat :=
  be32 (d.getD 1 0) (d.getD 2 0) (d.getD 3 0) (d.getD 4 0)

/-- Length field of a datagram (bytes 5..6, big endian). -/
def dgLen (d : List Nat) : Nat := be16 (d.getD 5 0) (d.getD 6 0)

/-- An ACK/SACK record sent by the receiver: destination address,
cumulative ack and 64-bit SACK mask. -/
structure AckMsg where
  dest : Nat
  cum : Nat
  mask : Nat
deriving DecidableEq, Repr

/-- One received datagram together with its source address and the stale
bytes sitting in the receive buffer beyond it. -/
structure RInput where
  src : Nat
  dgram : List Nat
  stale : Nat → Nat

/-- Receiver state: the local variables of `udp_receiver.c`'s `main` that
survive across loop iterations.  `hv` is the `have` bitmap (index `0` and
indices above `totalSegs` are never set), `sink` is the mmapped output file
viewed as bytes by offset.  `handshakePeer` is a ghost field recording who
sent the first accepted START; the C code keeps no such variable and never
compares peers, the field is only read by specifications. -/
structure RState where
  payloadMax : Nat
  started : Bool
  finished : Bool
  expectedTotal : Nat
  totalSegs : Nat
  cumAck : Nat
  hv : Nat → Bool
  sink : Nat → Nat
  received : Nat
  handshakePeer : Nat

/-- Fuel-indexed version of the receiver's `while (cum_ack < total_segs &&
have[cum_ack+1]) cum_ack++;` loop. -/
def advanceCumFuel (hv : Nat → Bool) (total : Nat) : Nat → Nat → Nat
  | c, 0 => c
  | c, fuel + 1 =>
    if c < total && hv (c + 1) then advanceCumFuel hv total (c + 1) fuel else c

/-- The receiver's cumulative-ack advance loop; `total - c` spare fuel is
enough because the counter increases towards `total`. -/
def advanceCum (hv : Nat → Bool) (total c : Nat) : Nat :=
  advanceCumFuel hv total c (total - c)

/-- The SACK-mask construction loop shared by the DATA and END branches:
`for (i=0;i<64;++i){ s = cum_ack+1+i; if (s <= total_segs && have[s]) mask
|= 1ULL << i; }` with the `uint32_t` wrap of `s` made explicit. -/
def sackMaskOf (st : RState) : Nat :=
  (List.range 64).foldl
    (fun mask i =>
      let s := (st.cumAck + 1 + i) % 2 ^ 32
      if s ≤ st.totalSegs && st.hv s then mask ||| (1 <<< i) else mask)
    0

/-- The receiver's fresh-DATA update (`udp_receiver.c` lines 194-202):
write the `len` payload bytes of the buffer at offset `(seq-1)*payload_max`
of the sink, count them, set `have[seq]` and advance `cum_ack`. -/
def dataWriteState (st : RState) (inp : RInput) : RState :=
  let seq := dgSeq inp.dgram
  let len := dgLen inp.dgram
  let off := (seq - 1) * st.payloadMax
  let hv' := fun k => if k = seq then true else st.hv k
  { st with
    sink := fun o =>
      if off ≤ o ∧ o < off + len then byteAt inp.dgram inp.stale (7 + (o - off))
      else st.sink o,
    received := st.received + len,
    hv := hv',
    cumAck := advanceCum hv' st.totalSegs st.cumAck }

/-- One iteration of the receiver's main loop on a received datagram:
returns the updated state and the list of ACK packets sent.  Mirrors
`udp_receiver.c` lines 152-227, including the absence of any check that the
header's `len` field fits inside the received datagram (payload bytes are
taken from the buffer via `byteAt`, so a short datagram makes the receiver
consume stale bytes). -/
def rstep (st : RState) (inp : RInput) : RState × List AckMsg :=
  let d := inp.dgram
  if d.length < 7 then (st, [])
  else
    let ty := dgType d
    let seq := dgSeq d
    let len := dgLen d
    if ty = 2 ∧ seq = 0 then
      -- START
      if st.started = false then
        if len ≠ 8 then (st, [])
        else
          -- total length: memcpy(&fs_net, buf+HDR, 8) — again read via byteAt
          let b := byteAt d inp.stale
          let t := be32 (b 7) (b 8) (b 9) (b 10) * 2 ^ 32
                   + be32 (b 11) (b 12) (b 13) (b 14)
          let segs := ((t + st.payloadMax - 1) / st.payloadMax) % 2 ^ 32
          let st' : RState :=
            { st with started := true, finished := false, expectedTotal := t,
                      totalSegs := segs, cumAck := 0,
                      hv := fun _ => false, sink := fun _ => 0, received := 0,
                      handshakePeer := inp.src }
          (st', [⟨inp.src, 0, 0⟩])
      else
        -- subsequent START: ACK with the current cum_ack and a zero mask
        (st, [⟨inp.src, st.cumAck, 0⟩])
    else if st.started = false then (st, [])
    else if ty = 1 then
      -- DATA
      if seq = 0 ∨ st.totalSegs < seq then (st, [])
      else if st.hv seq = false then
        if st.payloadMax < len then (st, [])
        else
          let st' := dataWriteState st inp
          (st', [⟨inp.src, st'.cumAck, sackMaskOf st'⟩])
      else
        -- duplicate DATA: no state change, but still one ACK
        (st, [⟨inp.src, st.cumAck, sackMaskOf st⟩])
    else if ty = 3 then
      -- END
      let st' := if st.cumAck = st.totalSegs then { st with finished := true } else st
      (st', [⟨inp.src, st.cumAck, sackMaskOf st⟩])
    else (st, [])

/-- Run the receiver over a list of datagrams, discarding the emitted ACKs. -/
def rrun (st : RState) : List RInput → RState
  | [] => st
  | inp :: is => rrun (rstep st inp).1 is

/-- Receiver state immediately after the first accepted START advertising
total length `t`, with payload size `p`, from peer `peer`:
`total_segs = (uint32)((t + p - 1) / p)`, fresh zeroed bitmap and sink. -/
def startedState (t p peer : Nat) : RState :=
  { payloadMax := p, started := true, finished := false, expectedTotal := t,
    totalSegs := ((t + p - 1) / p) % 2 ^ 32, cumAck := 0,
    hv := fun _ => false, sink := fun _ => 0, received := 0,
    handshakePeer := peer }

/-- Sender state: the per-segment arrays and window counters of
`udp_sender.c`'s `main`.  `txCnt` is `tx_cnt`, `lastSent` is `sent_ts`
(modelled in integer milliseconds of the monotonic clock); the local
`in_flight` counter is omitted because the C code only ever writes it.
`totalSegs` is the `uint32` segment count. -/
structure SState where
  totalSegs : Nat
  base : Nat
  nextToSend : Nat
  acked : Nat → Bool
  txCnt : Nat → Nat
  lastSent : Nat → Nat

/-- Initial bulk-phase sender state: `base = next_to_send = 1`, all arrays
zeroed by `calloc`. -/
def initS (total : Nat) : SState :=
  { totalSegs := total, base := 1, nextToSend := 1,
    acked := fun _ => false, txCnt := fun _ => 0, lastSent := fun _ => 0 }

/-- The cumulative part of ACK processing, modelled exactly: `for (uint32_t
s = base; s <= cum && s <= total_segs; ++s) if (!acked[s]) acked[s] = 1;`.
The loop counter `s` is `uint32`, so `++s` wraps at `2^32`; when
`min cum total = 2^32 - 1` every `uint32` value satisfies the guard and the
loop never exits, which the fuel of `2^32 + 1` (more steps than distinct
counter values) detects as `none`.  (The `!acked` test only matters for the
dropped `in_flight` counter, so the update is modelled unconditionally.) -/
def ackCumFuel (cum total : Nat) : Nat → (Nat → Bool) → Nat → Option (Nat → Bool)
  | 0, _, _ => none
  | fuel + 1, a, s =>
    if s ≤ cum ∧ s ≤ total then
      ackCumFuel cum total fuel (fun k => if k = s then true else a k)
        ((s + 1) % 2 ^ 32)
    else some a

/-- The cumulative-ack loop applied from `s = base`; `none` means the C
loop hangs forever. -/
def ackCum (a : Nat → Bool) (base cum total : Nat) : Option (Nat → Bool) :=
  ackCumFuel cum total (2 ^ 32 + 1) a base

/-- The bitmap the cumulative-ack loop produces whenever it terminates
without the counter wrapping (`min cum total ≤ 2^32 - 2`, proved below in
`ackCum_eq_set`): everything in `[base, min cum total]` becomes acked. -/
def ackCumSet (a : Nat → Bool) (base cum total : Nat) : Nat → Bool :=
  (List.range' base (min cum total + 1 - base)).foldl
    (fun a s => fun k => if k = s then true else a k) a

/-- The SACK part of ACK processing: `for (i=0;i<64;++i) if (mask &
(1ULL<<i)) { uint32_t s = cum + 1 + i; if (s <= total_segs && !acked[s])
acked[s] = 1; }`, with the `uint32_t` wrap of `s` explicit. -/
def ackMask (a : Nat → Bool) (cum mask total : Nat) : Nat → Bool :=
  (List.range 64).foldl
    (fun a i =>
      if mask.testBit i then
        let s := (cum + 1 + i) % 2 ^ 32
        if s ≤ total then (fun k => if k = s then true else a k) else a
      else a)
    a

/-- The sender's base slide, modelled exactly: `while (base <= total_segs
&& acked[base]) base++;` with `base` a `uint32`, so `base++` wraps past
`2^32 - 1` to 0 — at `total_segs = 2^32 - 1` with the whole `uint32` range
acked the loop never exits (`none`, detected by the fuel as above). -/
def baseSlideFuel (a : Nat → Bool) (total : Nat) : Nat → Nat → Option Nat
  | 0, _ => none
  | fuel + 1, b =>
    if b ≤ total ∧ a b = true then
      baseSlideFuel a total fuel ((b + 1) % 2 ^ 32)
    else some b

/-- The base slide from `b`; `none` means the C loop hangs forever. -/
def baseSlide (a : Nat → Bool) (total b : Nat) : Option Nat :=
  baseSlideFuel a total (2 ^ 32 + 1) b

/-- Fuel-indexed wrap-free evaluation of the base slide (its value whenever
`total ≤ 2^32 - 2`, proved below in `baseSlide_eq_adv`). -/
def baseAdvFuel (a : Nat → Bool) (total : Nat) : Nat → Nat → Nat
  | b, 0 => b
  | b, fuel + 1 =>
    if b ≤ total && a b then baseAdvFuel a total (b + 1) fuel else b

/-- The wrap-free base-slide value; `total + 1 - b` fuel reaches the fixed
point because the loop guard fails once `base` passes `total`. -/
def baseAdv (a : Nat → Bool) (total b : Nat) : Nat :=
  baseAdvFuel a total b (total + 1 - b)

/-- Processing of one well-formed ACK `(cum, mask)` by the sender
(`udp_sender.c` lines 222-250): ack the cumulative range, slide `base`,
ack the mask bits, slide `base` again.  `none` means the program hangs in
one of the two `uint32` loops and never finishes processing the ACK. -/
def ackStep (st : SState) (cum mask : Nat) : Option SState :=
  match ackCum st.acked st.base cum st.totalSegs with
  | none => none
  | some a1 =>
    match baseSlide a1 st.totalSegs st.base with
    | none => none
    | some b1 =>
      let a2 := ackMask a1 cum mask st.totalSegs
      match baseSlide a2 st.totalSegs b1 with
      | none => none
      | some b2 => some { st with acked := a2, base := b2 }

/-- The state ACK processing produces whenever no `uint32` loop wraps
(`total_segs ≤ 2^32 - 2`; `ackStep_eq_T` below proves
`ackStep st cum mask = some (ackStepT st cum mask)` there). -/
def ackStepT (st : SState) (cum mask : Nat) : SState :=
  let a1 := ackCumSet st.acked st.base cum st.totalSegs
  let b1 := baseAdv a1 st.totalSegs st.base
  let a2 := ackMask a1 cum mask st.totalSegs
  let b2 := baseAdv a2 st.totalSegs b1
  { st with acked := a2, base := b2 }

/-- A sender state at the `uint32` boundary: `total_segs = 2^32 - 1`
(reachable, e.g. `total_bytes = (2^32 - 1) * 512`), every segment except
the last acked, every segment transmitted once, and `base` slid to the
last segment `2^32 - 1`. -/
def wrapState : SState :=
  { totalSegs := 4294967295, base := 4294967295, nextToSend := 4294967296,
    acked := fun k => decide (1 ≤ k) && decide (k ≤ 4294967294),
    txCnt := fun _ => 1, lastSent := fun _ => 0 }

/-- Fuel-indexed version of the sender's new-transmission loop: `while
(next_to_send <= total_segs && (int)(next_to_send - base) < win) { if
(sendmsg(...) < 0) perror(...); else { tx_cnt[next]++; sent_ts[next] =
now_s(); } next_to_send++; }`.  `sendok s` says whether the `sendmsg` for
segment `s` succeeds: on a transient send error the counters are not
touched but `next_to_send` still advances, exactly as in the C. -/
def sendNewFuel (win now : Nat) (sendok : Nat → Bool) : Nat → SState → SState
  | 0, st => st
  | fuel + 1, st =>
    if st.nextToSend ≤ st.totalSegs && st.nextToSend - st.base < win then
      sendNewFuel win now sendok fuel
        (if sendok st.nextToSend then
          { st with
            txCnt := fun k => if k = st.nextToSend then st.txCnt k + 1 else st.txCnt k,
            lastSent := fun k => if k = st.nextToSend then now else st.lastSent k,
            nextToSend := st.nextToSend + 1 }
        else { st with nextToSend := st.nextToSend + 1 })
    else st

/-- Step 1 of the sender's main loop (emit new segments inside the
window). -/
def sendNewLoop (win now : Nat) (sendok : Nat → Bool) (st : SState) : SState :=
  sendNewFuel win now sendok (st.totalSegs + 1 - st.nextToSend) st

/-- The retransmission scan over one list of candidate sequence numbers
(`udp_sender.c` lines 253-275).  Returns the segments actually
retransmitted and either the updated state or, when an unacked segment has
already been transmitted `retries` times, the process exit code `1`
(`exit(1)` fires before any further send of that segment). -/
def retxScanAux (retries rto now : Nat) :
    List Nat → SState → List Nat × Except Nat SState
  | [], st => ([], .ok st)
  | s :: rest, st =>
    if s = 0 ∨ st.totalSegs < s then retxScanAux retries rto now rest st
    else if st.acked s then retxScanAux retries rto now rest st
    else if retries ≤ st.txCnt s then ([], .error 1)
    else if rto ≤ now - st.lastSent s then
      let st' :=
        { st with
          txCnt := fun k => if k = s then st.txCnt k + 1 else st.txCnt k,
          lastSent := fun k => if k = s then now else st.lastSent k }
      let p := retxScanAux retries rto now rest st'
      (s :: p.1, p.2)
    else retxScanAux retries rto now rest st

/-- Step 3 of the sender's main loop: scan `[base, next_to_send)` in
ascending order for timed-out unacked segments. -/
def retxScan (retries rto now : Nat) (st : SState) :
    List Nat × Except Nat SState :=
  retxScanAux retries rto now (List.range' st.base (st.nextToSend - st.base)) st

/-- One observable event of the sender's bulk loop: a pass of the
new-segment emitter (with the success of each `sendmsg` recorded by
`sendok`), receipt of one well-formed ACK, or one retransmission scan at
monotonic time `now`. -/
inductive SEvent where
  | emit (now : Nat) (sendok : Nat → Bool)
  | recvAck (cum mask : Nat)
  | retx (now : Nat)

/-- Apply one bulk-loop event; `some (.error 1)` is the `exit(1)`
retry-exhaustion path, and `none` means the program hangs inside ACK
processing (the `uint32` loop corner of `ackStep`). -/
def sstep (win retries rto : Nat) (st : SState) :
    SEvent → Option (Except Nat SState)
  | .emit now sendok => some (.ok (sendNewLoop win now sendok st))
  | .recvAck cum mask => (ackStep st cum mask).map .ok
  | .retx now => some (retxScan retries rto now st).2

/-- Run the sender's bulk loop over a list of events, stopping at the first
abort; `none` means the run hangs. -/
def srun (win retries rto : Nat) (st : SState) :
    List SEvent → Option (Except Nat SState)
  | [] => some (.ok st)
  | e :: es =>
    match sstep win retries rto st e with
    | some (.ok st') => srun win retries rto st' es
    | some (.error c) => some (.error c)
    | none => none

/-- An ACK event is honest when every segment it would newly mark acked has
been transmitted at least once: this is what ACKs produced by the receiver
satisfy, since the receiver only acknowledges data it received. -/
def HonestStep (st : SState) : SEvent → Prop
  | .recvAck cum mask =>
      ∀ s, st.acked s = false → (ackStepT st cum mask).acked s = true →
        1 ≤ st.txCnt s
  | _ => True

/-- A protocol run: every ACK consumed along the way is honest. -/
def GoodRun (win retries rto : Nat) (st : SState) : List SEvent → Prop
  | [] => True
  | e :: es =>
    HonestStep st e ∧
      match sstep win retries rto st e with
      | some (.ok st') => GoodRun win retries rto st' es
      | _ => True

/-- The sender's parse of a received ACK datagram (`udp_sender.c` lines
222-230): accept when at least 7 bytes arrived, the type is `PKT_ACK` and
the `len` field equals 12, then read `cum`/`mask` from the buffer — the 12
payload bytes are never checked against the received length, so they may
come from stale buffer contents (`byteAt`). -/
def senderParseAck (d : List Nat) (stale : Nat → Nat) : Option (Nat × Nat) :=
  if d.length < 7 then none
  else if dgType d = 16 ∧ dgLen d = 12 then
    let b := byteAt d stale
    some (be32 (b 7) (b 8) (b 9) (b 10),
          be32 (b 11) (b 12) (b 13) (b 14) * 2 ^ 32
            + be32 (b 15) (b 16) (b 17) (b 18))
  else none

/-- Segment count `total_segs = (uint32)((total_bytes + payload_max - 1) /
payload_max)` computed identically by both peers (the sum is `uint64`). -/
def totalSegsOf (t p : Nat) : Nat := (((t + p - 1) % 2 ^ 64) / p) % 2 ^ 32

/-- Byte offset of segment `k`: `offset = (uint64)(k - 1) * payload_max`. -/
def segOffset (p k : Nat) : Nat := (k - 1) * p

/-- Wire length of segment `k`: `uint16_t len = (uint16_t)MIN(payload_max,
total_bytes - offset)` (`udp_sender.c` lines 200 and 264) — the cast to
`uint16_t` truncates the minimum modulo `2^16`. -/
def segLen (t p k : Nat) : Nat := (min p (t - segOffset p k)) % 2 ^ 16

/-! ### Lemmas about the receiver's loops -/

theorem advanceCumFuel_le (hv : Nat → Bool) (total : Nat) :
    ∀ f c, c ≤ advanceCumFuel hv total c f := by
  intro f
  induction f with
  | zero => intro c; simp [advanceCumFuel]
  | succ f ih =>
    intro c
    simp only [advanceCumFuel]
    split
    · exact le_trans (Nat.le_succ c) (ih (c + 1))
    · exact le_refl c

theorem advanceCumFuel_filled (hv : Nat → Bool) (total : Nat) :
    ∀ f c j, c < j → j ≤ advanceCumFuel hv total c f → hv j = true := by
  intro f
  induction f with
  | zero => intro c j hcj hj; simp [advanceCumFuel] at hj; omega
  | succ f ih =>
    intro c j hcj hj
    simp only [advanceCumFuel] at hj
    split at hj
    · rename_i hguard
      rcases Nat.lt_or_ge c.succ j with hlt | hge
      · exact ih (c + 1) j hlt hj
      · have hj1 : j = c + 1 := by omega
        subst hj1
        exact (Bool.and_eq_true ..).mp hguard |>.2
    · omega

theorem advanceCumFuel_le_total (hv : Nat → Bool) (total : Nat) :
    ∀ f c, c ≤ total → advanceCumFuel hv total c f ≤ total := by
  intro f
  induction f with
  | zero => intro c h; simpa [advanceCumFuel] using h
  | succ f ih =>
    intro c h
    simp only [advanceCumFuel]
    split
    · rename_i hguard
      have hc : c < total :=
        of_decide_eq_true ((Bool.and_eq_true _ _).mp hguard).1
      exact ih (c + 1) hc
    · exact h

theorem advanceCumFuel_stop (hv : Nat → Bool) (total : Nat) :
    ∀ f c, total - c ≤ f →
      advanceCumFuel hv total c f < total →
      hv (advanceCumFuel hv total c f + 1) = false := by
  intro f
  induction f with
  | zero =>
    intro c hf hlt
    simp only [advanceCumFuel] at hlt
    exact absurd hlt (by omega)
  | succ f ih =>
    intro c hf
    simp only [advanceCumFuel]
    split
    · rename_i hguard
      have hc : c < total :=
        of_decide_eq_true ((Bool.and_eq_true _ _).mp hguard).1
      exact ih (c + 1) (by omega)
    · rename_i hguard
      intro hlt
      rw [Bool.and_eq_true] at hguard
      cases hhv : hv (c + 1)
      · rfl
      · exact absurd ⟨decide_eq_true hlt, hhv⟩ hguard

theorem maskFold_testBit (cond : Nat → Bool) :
    ∀ (L : List Nat) (acc : Nat) (i : Nat),
      Nat.testBit
        (L.foldl (fun mask j => if cond j then mask ||| (1 <<< j) else mask) acc) i
        = (acc.testBit i || (decide (i ∈ L) && cond i)) := by
  intro L
  induction L with
  | nil => intro acc i; simp
  | cons j L ih =>
    intro acc i
    simp only [List.foldl_cons, ih, List.mem_cons]
    have hstep :
        Nat.testBit (if cond j then acc ||| (1 <<< j) else acc) i
          = (acc.testBit i || (decide (i = j) && cond i)) := by
      by_cases hij : i = j
      · subst hij
        by_cases hc : cond i
        · simp [hc, Nat.shiftLeft_eq, Nat.testBit_lor, Nat.testBit_two_pow]
        · simp [hc]
      · have hji : ¬ j = i := fun h => hij h.symm
        by_cases hc : cond j
        · simp [hc, hij, hji, Nat.shiftLeft_eq, Nat.testBit_lor, Nat.testBit_two_pow]
        · simp [hc, hij]
    rw [hstep]
    have hd : decide (i = j ∨ i ∈ L) = (decide (i = j) || decide (i ∈ L)) := by
      by_cases h1 : i = j <;> by_cases h2 : i ∈ L <;> simp [h1, h2]
    rw [hd]
    have habs : ∀ (a m1 m2 c : Bool),
        ((a || (m1 && c)) || (m2 && c)) = (a || ((m1 || m2) && c)) := by decide
    exact habs (acc.testBit i) (decide (i = j)) (decide (i ∈ L)) (cond i)

/-- Bit `i` (`i < 64`) of the receiver's SACK mask is set iff the
`uint32` index `(cum_ack + 1 + i) mod 2^32` is a received in-range
segment. -/
theorem sackMask_testBit (st : RState) (i : Nat) (hi : i < 64) :
    Nat.testBit (sackMaskOf st) i =
      (decide ((st.cumAck + 1 + i) % 2 ^ 32 ≤ st.totalSegs) &&
        st.hv ((st.cumAck + 1 + i) % 2 ^ 32)) := by
  have h := maskFold_testBit
    (fun j => decide ((st.cumAck + 1 + j) % 2 ^ 32 ≤ st.totalSegs) &&
      st.hv ((st.cumAck + 1 + j) % 2 ^ 32))
    (List.range 64) 0 i
  have hdef : sackMaskOf st
      = (List.range 64).foldl
          (fun mask j =>
            if decide ((st.cumAck + 1 + j) % 2 ^ 32 ≤ st.totalSegs) &&
                st.hv ((st.cumAck + 1 + j) % 2 ^ 32) then
              mask ||| (1 <<< j)
            else mask) 0 := rfl
  rw [hdef, h, Nat.zero_testBit, Bool.false_or]
  simp [List.mem_range, hi]

/-! ### Case equations for `rstep` -/

theorem rstep_short (st : RState) (inp : RInput) (h : inp.dgram.length < 7) :
    rstep st inp = (st, []) := by
  simp [rstep, h]

theorem rstep_not_started (st : RState) (inp : RInput)
    (h7 : 7 ≤ inp.dgram.length) (hs : st.started = false)
    (hty : dgType inp.dgram = 1 ∨ dgType inp.dgram = 3) :
    rstep st inp = (st, []) := by
  have h7' : ¬ inp.dgram.length < 7 := by omega
  rcases hty with h | h <;> simp [rstep, h7', h, hs]

theorem rstep_start_active (st : RState) (inp : RInput)
    (h7 : 7 ≤ inp.dgram.length) (hs : st.started = true)
    (hty : dgType inp.dgram = 2) (hseq : dgSeq inp.dgram = 0) :
    rstep st inp = (st, [⟨inp.src, st.cumAck, 0⟩]) := by
  have h7' : ¬ inp.dgram.length < 7 := by omega
  simp [rstep, h7', hty, hseq, hs]

theorem rstep_data_invalid (st : RState) (inp : RInput)
    (h7 : 7 ≤ inp.dgram.length) (hs : st.started = true)
    (hty : dgType inp.dgram = 1)
    (hseq : dgSeq inp.dgram = 0 ∨ st.totalSegs < dgSeq inp.dgram) :
    rstep st inp = (st, []) := by
  have h7' : ¬ inp.dgram.length < 7 := by omega
  rcases hseq with h | h <;> simp [rstep, h7', hty, hs, h]

theorem rstep_data_oversize (st : RState) (inp : RInput)
    (h7 : 7 ≤ inp.dgram.length) (hs : st.started = true)
    (hty : dgType inp.dgram = 1)
    (h1 : 1 ≤ dgSeq inp.dgram) (h2 : dgSeq inp.dgram ≤ st.totalSegs)
    (hfresh : st.hv (dgSeq inp.dgram) = false)
    (hlen : st.payloadMax < dgLen inp.dgram) :
    rstep st inp = (st, []) := by
  have h7' : ¬ inp.dgram.length < 7 := by omega
  have hnv : ¬ (dgSeq inp.dgram = 0 ∨ st.totalSegs < dgSeq inp.dgram) := by omega
  simp [rstep, h7', hty, hs, hnv, hfresh, hlen]

theorem rstep_data_fresh (st : RState) (inp : RInput)
    (h7 : 7 ≤ inp.dgram.length) (hs : st.started = true)
    (hty : dgType inp.dgram = 1)
    (h1 : 1 ≤ dgSeq inp.dgram) (h2 : dgSeq inp.dgram ≤ st.totalSegs)
    (hfresh : st.hv (dgSeq inp.dgram) = false)
    (hlen : dgLen inp.dgram ≤ st.payloadMax) :
    rstep st inp =
      (dataWriteState st inp,
       [⟨inp.src, (dataWriteState st inp).cumAck,
         sackMaskOf (dataWriteState st inp)⟩]) := by
  have h7' : ¬ inp.dgram.length < 7 := by omega
  have hnv : ¬ (dgSeq inp.dgram = 0 ∨ st.totalSegs < dgSeq inp.dgram) := by omega
  have hlen' : ¬ st.payloadMax < dgLen inp.dgram := by omega
  simp [rstep, h7', hty, hs, hnv, hfresh, hlen']

theorem rstep_data_dup (st : RState) (inp : RInput)
    (h7 : 7 ≤ inp.dgram.length) (hs : st.started = true)
    (hty : dgType inp.dgram = 1)
    (h1 : 1 ≤ dgSeq inp.dgram) (h2 : dgSeq inp.dgram ≤ st.totalSegs)
    (hdup : st.hv (dgSeq inp.dgram) = true) :
    rstep st inp = (st, [⟨inp.src, st.cumAck, sackMaskOf st⟩]) := by
  have h7' : ¬ inp.dgram.length < 7 := by omega
  have hnv : ¬ (dgSeq inp.dgram = 0 ∨ st.totalSegs < dgSeq inp.dgram) := by omega
  simp [rstep, h7', hty, hs, hnv, hdup]

theorem rstep_end (st : RState) (inp : RInput)
    (h7 : 7 ≤ inp.dgram.length) (hs : st.started = true)
    (hty : dgType inp.dgram = 3) :
    rstep st inp =
      ((if st.cumAck = st.totalSegs then { st with finished := true } else st),
       [⟨inp.src, st.cumAck, sackMaskOf st⟩]) := by
  have h7' : ¬ inp.dgram.length < 7 := by omega
  simp [rstep, h7', hty, hs]

/-! ### The receiver's running invariant -/

/-- Invariant of the receiver state after an accepted START: `cum_ack`
never exceeds the segment count, all segments up to `cum_ack` are marked
received, the segment right above `cum_ack` is missing (whenever there is
one), and the `have` bitmap is clear at index `0` and beyond the segment
count. -/
structure RInv (st : RState) : Prop where
  started : st.started = true
  cum_le : st.cumAck ≤ st.totalSegs
  filled : ∀ j, 1 ≤ j → j ≤ st.cumAck → st.hv j = true
  gap : st.cumAck < st.totalSegs → st.hv (st.cumAck + 1) = false
  zero : st.hv 0 = false
  high : ∀ k, st.totalSegs < k → st.hv k = false

/-- From the invariant, `cum_ack` is the greatest `c` such that all
segments `1..c` have been received. -/
theorem RInv_cum_max {st : RState} (h : RInv st) :
    ∀ c, (∀ j, 1 ≤ j → j ≤ c → st.hv j = true) → c ≤ st.cumAck := by
  intro c hc
  by_contra hlt
  push_neg at hlt
  by_cases hcase : st.cumAck < st.totalSegs
  · have hf := h.gap hcase
    have ht := hc (st.cumAck + 1) (by omega) (by omega)
    rw [hf] at ht
    cases ht
  · have ht := hc c (by omega) (le_refl c)
    have hf := h.high c (by omega)
    rw [hf] at ht
    cases ht

theorem rstep_other (st : RState) (inp : RInput)
    (h7 : 7 ≤ inp.dgram.length) (hs : st.started = true)
    (hty2 : ¬ (dgType inp.dgram = 2 ∧ dgSeq inp.dgram = 0))
    (hty1 : ¬ dgType inp.dgram = 1) (hty3 : ¬ dgType inp.dgram = 3) :
    rstep st inp = (st, []) := by
  have h7' : ¬ inp.dgram.length < 7 := by omega
  simp [rstep, h7', hs, hty2, hty1, hty3]

/-- Invariant preservation together with the two monotonicity facts: one
receiver step never clears a `have` bit and never decreases `cum_ack`. -/
theorem rstep_preserves {st : RState} (inp : RInput) (h : RInv st) :
    RInv (rstep st inp).1 ∧
    (∀ k, st.hv k = true → (rstep st inp).1.hv k = true) ∧
    st.cumAck ≤ (rstep st inp).1.cumAck := by
  by_cases h7 : inp.dgram.length < 7
  · rw [rstep_short st inp h7]
    exact ⟨h, fun k hk => hk, le_refl _⟩
  have h7' : 7 ≤ inp.dgram.length := by omega
  by_cases hty2 : dgType inp.dgram = 2 ∧ dgSeq inp.dgram = 0
  · rw [rstep_start_active st inp h7' h.started hty2.1 hty2.2]
    exact ⟨h, fun k hk => hk, le_refl _⟩
  by_cases hty1 : dgType inp.dgram = 1
  · by_cases hseq : dgSeq inp.dgram = 0 ∨ st.totalSegs < dgSeq inp.dgram
    · rw [rstep_data_invalid st inp h7' h.started hty1 hseq]
      exact ⟨h, fun k hk => hk, le_refl _⟩
    push_neg at hseq
    have h1 : 1 ≤ dgSeq inp.dgram := by omega
    have h2 : dgSeq inp.dgram ≤ st.totalSegs := hseq.2
    by_cases hfresh : st.hv (dgSeq inp.dgram) = true
    · rw [rstep_data_dup st inp h7' h.started hty1 h1 h2 hfresh]
      exact ⟨h, fun k hk => hk, le_refl _⟩
    rw [Bool.not_eq_true] at hfresh
    by_cases hlen : st.payloadMax < dgLen inp.dgram
    · rw [rstep_data_oversize st inp h7' h.started hty1 h1 h2 hfresh hlen]
      exact ⟨h, fun k hk => hk, le_refl _⟩
    have hlen' : dgLen inp.dgram ≤ st.payloadMax := by omega
    rw [rstep_data_fresh st inp h7' h.started hty1 h1 h2 hfresh hlen']
    set seq := dgSeq inp.dgram with hseqdef
    have hhv' : (dataWriteState st inp).hv
        = fun k => if k = seq then true else st.hv k := rfl
    have hcum' : (dataWriteState st inp).cumAck
        = advanceCum (fun k => if k = seq then true else st.hv k)
            st.totalSegs st.cumAck := rfl
    have htot : (dataWriteState st inp).totalSegs = st.totalSegs := rfl
    have hmono : ∀ k, st.hv k = true → (dataWriteState st inp).hv k = true := by
      intro k hk
      rw [hhv']
      by_cases hk' : k = seq <;> simp [hk', hk]
    refine ⟨?_, hmono, ?_⟩
    · constructor
      · exact h.started
      · rw [hcum', htot]
        exact advanceCumFuel_le_total _ _ _ _ h.cum_le
      · intro j hj1 hj2
        rw [hcum'] at hj2
        rw [hhv', htot] at *
        by_cases hjc : j ≤ st.cumAck
        · by_cases hjs : j = seq <;> simp [hjs, h.filled j hj1 hjc]
        · exact advanceCumFuel_filled _ _ _ _ j (by omega) hj2
      · intro hlt
        rw [hcum', htot] at *
        exact advanceCumFuel_stop _ _ _ _ (le_refl _) hlt
      · rw [hhv']
        have : ¬ (0 = seq) := by omega
        simp [this, h.zero]
      · intro k hk
        rw [hhv', htot] at *
        have : ¬ (k = seq) := by omega
        simp [this, h.high k hk]
    · rw [hcum']
      exact advanceCumFuel_le _ _ _ _
  by_cases hty3 : dgType inp.dgram = 3
  · rw [rstep_end st inp h7' h.started hty3]
    by_cases hfin : st.cumAck = st.totalSegs
    · rw [if_pos hfin]
      refine ⟨⟨h.started, h.cum_le, h.filled, h.gap, h.zero, h.high⟩,
        fun k hk => hk, le_refl _⟩
    · rw [if_neg hfin]
      exact ⟨h, fun k hk => hk, le_refl _⟩
  · rw [rstep_other st inp h7' h.started hty2 hty1 hty3]
    exact ⟨h, fun k hk => hk, le_refl _⟩

theorem startedState_inv (t p peer : Nat) : RInv (startedState t p peer) := by
  refine ⟨rfl, by simp [startedState], ?_, fun _ => rfl, rfl, fun k _ => rfl⟩
  intro j hj1 hj2
  simp [startedState] at hj2
  omega

theorem rrun_append (s : RState) (l1 l2 : List RInput) :
    rrun s (l1 ++ l2) = rrun (rrun s l1) l2 := by
  induction l1 generalizing s with
  | nil => rfl
  | cons x xs ih => simp [rrun, ih]

theorem rrun_inv (s : RState) (h : RInv s) : ∀ ds, RInv (rrun s ds) := by
  intro ds
  induction ds generalizing s with
  | nil => exact h
  | cons d ds ih => exact ih _ (rstep_preserves d h).1

/-! ### Lemmas about the sender's loops -/

theorem setFold_mem (L : List Nat) :
    ∀ (a : Nat → Bool) (k : Nat),
      ((L.foldl (fun a s => fun k => if k = s then true else a k) a) k = true)
        ↔ (a k = true ∨ k ∈ L) := by
  induction L with
  | nil => intro a k; simp
  | cons s L ih =>
    intro a k
    simp only [List.foldl_cons, List.mem_cons]
    rw [ih]
    by_cases hks : k = s
    · simp [hks]
    · simp [hks]

/-- Membership characterisation of the cumulative ack loop. -/
theorem ackCumSet_mem (a : Nat → Bool) (base cum total k : Nat) :
    (ackCumSet a base cum total k = true)
      ↔ (a k = true ∨ (base ≤ k ∧ k ≤ cum ∧ k ≤ total)) := by
  unfold ackCumSet
  rw [setFold_mem]
  have hm : k ∈ List.range' base (min cum total + 1 - base)
      ↔ (base ≤ k ∧ k ≤ cum ∧ k ≤ total) := by
    rw [List.mem_range'_1]
    omega
  rw [hm]

theorem ackMaskFold_mem (cum mask total : Nat) :
    ∀ (L : List Nat) (a : Nat → Bool) (k : Nat),
      ((L.foldl
        (fun a i =>
          if mask.testBit i then
            if (cum + 1 + i) % 2 ^ 32 ≤ total then
              (fun k => if k = (cum + 1 + i) % 2 ^ 32 then true else a k)
            else a
          else a) a) k = true)
        ↔ (a k = true ∨
            ∃ i, i ∈ L ∧ mask.testBit i = true ∧
              (cum + 1 + i) % 2 ^ 32 = k ∧ k ≤ total) := by
  intro L
  induction L with
  | nil => intro a k; simp
  | cons j L ih =>
    intro a k
    simp only [List.foldl_cons]
    rw [ih]
    have hstep :
        ((if mask.testBit j then
            if (cum + 1 + j) % 2 ^ 32 ≤ total then
              (fun k => if k = (cum + 1 + j) % 2 ^ 32 then true else a k)
            else a
          else a) k = true)
          ↔ (a k = true ∨ (mask.testBit j = true ∧
              (cum + 1 + j) % 2 ^ 32 = k ∧ k ≤ total)) := by
      by_cases hbj : mask.testBit j = true
      · rw [if_pos hbj]
        by_cases hsj : (cum + 1 + j) % 2 ^ 32 ≤ total
        · rw [if_pos hsj]
          by_cases hk : k = (cum + 1 + j) % 2 ^ 32
          · rw [if_pos hk]
            constructor
            · intro _
              exact Or.inr ⟨hbj, hk.symm, hk ▸ hsj⟩
            · intro _; rfl
          · rw [if_neg hk]
            constructor
            · exact Or.inl
            · rintro (h | ⟨_, hk', _⟩)
              · exact h
              · exact absurd hk'.symm hk
        · rw [if_neg hsj]
          constructor
          · exact Or.inl
          · rintro (h | ⟨_, hk', hkt⟩)
            · exact h
            · exact absurd (hk' ▸ hkt) hsj
      · rw [if_neg hbj]
        constructor
        · exact Or.inl
        · rintro (h | ⟨hb, _, _⟩)
          · exact h
          · exact absurd hb hbj
    rw [hstep]
    constructor
    · rintro ((h | hj) | ⟨i, hi, hp⟩)
      · exact Or.inl h
      · exact Or.inr ⟨j, List.mem_cons_self _ _, hj⟩
      · exact Or.inr ⟨i, List.mem_cons_of_mem _ hi, hp⟩
    · rintro (h | ⟨i, hi, hp⟩)
      · exact Or.inl (Or.inl h)
      · rcases List.mem_cons.mp hi with rfl | hi
        · exact Or.inl (Or.inr hp)
        · exact Or.inr ⟨i, hi, hp⟩

/-- Membership characterisation of the SACK-bit ack loop. -/
theorem ackMask_mem (a : Nat → Bool) (cum mask total k : Nat) :
    (ackMask a cum mask total k = true)
      ↔ (a k = true ∨
          ∃ i, i < 64 ∧ mask.testBit i = true ∧
            (cum + 1 + i) % 2 ^ 32 = k ∧ k ≤ total) := by
  have hdef : ackMask a cum mask total k
      = (List.range 64).foldl
          (fun a i =>
            if mask.testBit i then
              if (cum + 1 + i) % 2 ^ 32 ≤ total then
                (fun k => if k = (cum + 1 + i) % 2 ^ 32 then true else a k)
              else a
            else a) a k := rfl
  rw [hdef, ackMaskFold_mem]
  constructor
  · rintro (h | ⟨i, hi, hp⟩)
    · exact Or.inl h
    · exact Or.inr ⟨i, List.mem_range.mp hi, hp⟩
  · rintro (h | ⟨i, hi, hp⟩)
    · exact Or.inl h
    · exact Or.inr ⟨i, List.mem_range.mpr hi, hp⟩

theorem baseAdvFuel_le (a : Nat → Bool) (total : Nat) :
    ∀ f b, b ≤ baseAdvFuel a total b f := by
  intro f
  induction f with
  | zero => intro b; simp [baseAdvFuel]
  | succ f ih =>
    intro b
    simp only [baseAdvFuel]
    split
    · exact le_trans (Nat.le_succ b) (ih (b + 1))
    · exact le_refl b

theorem baseAdvFuel_filled (a : Nat → Bool) (total : Nat) :
    ∀ f b j, b ≤ j → j < baseAdvFuel a total b f → a j = true := by
  intro f
  induction f with
  | zero => intro b j hbj hj; simp [baseAdvFuel] at hj; omega
  | succ f ih =>
    intro b j hbj hj
    simp only [baseAdvFuel] at hj
    split at hj
    · rename_i hguard
      rcases Nat.lt_or_ge j (b + 1) with hlt | hge
      · have hjb : j = b := by omega
        subst hjb
        exact ((Bool.and_eq_true _ _).mp hguard).2
      · exact ih (b + 1) j hge hj
    · omega

theorem baseAdvFuel_le_bound (a : Nat → Bool) (total : Nat) :
    ∀ f b, b ≤ total + 1 → baseAdvFuel a total b f ≤ total + 1 := by
  intro f
  induction f with
  | zero => intro b h; simpa [baseAdvFuel] using h
  | succ f ih =>
    intro b h
    simp only [baseAdvFuel]
    split
    · rename_i hguard
      have hb : b ≤ total :=
        of_decide_eq_true ((Bool.and_eq_true _ _).mp hguard).1
      exact ih (b + 1) (by omega)
    · exact h

theorem baseAdvFuel_stop (a : Nat → Bool) (total : Nat) :
    ∀ f b, total + 1 - b ≤ f →
      baseAdvFuel a total b f ≤ total →
      a (baseAdvFuel a total b f) = false := by
  intro f
  induction f with
  | zero =>
    intro b hf hle
    simp only [baseAdvFuel] at hle ⊢
    exact absurd hle (by omega)
  | succ f ih =>
    intro b hf
    simp only [baseAdvFuel]
    split
    · rename_i hguard
      have hb : b ≤ total :=
        of_decide_eq_true ((Bool.and_eq_true _ _).mp hguard).1
      exact ih (b + 1) (by omega)
    · rename_i hguard
      intro hle
      rw [Bool.and_eq_true] at hguard
      cases hab : a b
      · rfl
      · exact absurd ⟨decide_eq_true hle, hab⟩ hguard

theorem baseAdv_le (a : Nat → Bool) (total b : Nat) : b ≤ baseAdv a total b :=
  baseAdvFuel_le a total _ b

theorem baseAdv_filled (a : Nat → Bool) (total b : Nat) :
    ∀ j, b ≤ j → j < baseAdv a total b → a j = true :=
  fun j h1 h2 => baseAdvFuel_filled a total _ b j h1 h2

theorem baseAdv_le_bound (a : Nat → Bool) (total b : Nat) (h : b ≤ total + 1) :
    baseAdv a total b ≤ total + 1 :=
  baseAdvFuel_le_bound a total _ b h

theorem baseAdv_stop (a : Nat → Bool) (total b : Nat) :
    baseAdv a total b ≤ total → a (baseAdv a total b) = false :=
  baseAdvFuel_stop a total _ b (le_refl _)

/-- A starting point already violating the loop guard is a fixed point of
the base-advance loop. -/
theorem baseAdv_fix (a : Nat → Bool) (total b : Nat) (h : b ≤ total → a b = false) :
    baseAdv a total b = b := by
  unfold baseAdv
  cases hf : total + 1 - b with
  | zero => rfl
  | succ f =>
    simp only [baseAdvFuel]
    have hg : (decide (b ≤ total) && a b) = false := by
      by_cases hb : b ≤ total
      · simp [hb, h hb]
      · simp [hb]
    simp [hg]

/-! ### The fueled `uint32` loops agree with the wrap-free evaluations
whenever the counter cannot wrap -/

theorem ackCumFuel_eq (cum total : Nat) (hmin : min cum total ≤ 2 ^ 32 - 2) :
    ∀ (fuel : Nat) (a : Nat → Bool) (s : Nat), 1 ≤ fuel →
      min cum total + 2 - s ≤ fuel →
      ackCumFuel cum total fuel a s = some (ackCumSet a s cum total) := by
  intro fuel
  induction fuel with
  | zero => intro a s h1 _; omega
  | succ fuel ih =>
    intro a s _ hf
    simp only [ackCumFuel]
    by_cases hg : s ≤ cum ∧ s ≤ total
    · rw [if_pos hg]
      have hs : s ≤ min cum total := le_min hg.1 hg.2
      have hmod : (s + 1) % 2 ^ 32 = s + 1 := Nat.mod_eq_of_lt (by omega)
      rw [hmod]
      have hset : ackCumSet a s cum total
          = ackCumSet (fun k => if k = s then true else a k) (s + 1) cum total := by
        unfold ackCumSet
        have hc : min cum total + 1 - s = (min cum total + 1 - (s + 1)) + 1 := by
          omega
        rw [hc, List.range'_succ, List.foldl_cons]
      rw [hset]
      exact ih _ (s + 1) (by omega) (by omega)
    · rw [if_neg hg]
      have hsm : min cum total < s := by
        rcases Nat.lt_or_ge cum s with h | h
        · exact lt_of_le_of_lt (min_le_left _ _) h
        · rcases Nat.lt_or_ge total s with h2 | h2
          · exact lt_of_le_of_lt (min_le_right _ _) h2
          · exact absurd ⟨h, h2⟩ hg
      have hc : min cum total + 1 - s = 0 := by omega
      unfold ackCumSet
      rw [hc]
      rfl

/-- Whenever the cumulative target does not reach `2^32 - 1` the `uint32`
loop counter cannot wrap, the C loop terminates, and its effect is exactly
the wrap-free interval marking `ackCumSet`. -/
theorem ackCum_eq_set (cum total : Nat) (hmin : min cum total ≤ 2 ^ 32 - 2)
    (a : Nat → Bool) (base : Nat) :
    ackCum a base cum total = some (ackCumSet a base cum total) :=
  ackCumFuel_eq cum total hmin (2 ^ 32 + 1) a base (by omega) (by omega)

theorem baseSlideFuel_eq (total : Nat) (htot : total ≤ 2 ^ 32 - 2)
    (a : Nat → Bool) :
    ∀ (fuel b : Nat), 1 ≤ fuel → total + 2 - b ≤ fuel →
      baseSlideFuel a total fuel b = some (baseAdv a total b) := by
  intro fuel
  induction fuel with
  | zero => intro b h1 _; omega
  | succ fuel ih =>
    intro b _ hf
    simp only [baseSlideFuel]
    by_cases hg : b ≤ total ∧ a b = true
    · rw [if_pos hg]
      have hmod : (b + 1) % 2 ^ 32 = b + 1 := Nat.mod_eq_of_lt (by omega)
      rw [hmod]
      have hadv : baseAdv a total b = baseAdv a total (b + 1) := by
        unfold baseAdv
        have hc : total + 1 - b = (total + 1 - (b + 1)) + 1 := by omega
        rw [hc]
        simp only [baseAdvFuel]
        rw [if_pos (by simp [hg.1, hg.2])]
      rw [hadv]
      exact ih (b + 1) (by omega) (by omega)
    · rw [if_neg hg]
      have hfix : baseAdv a total b = b := by
        apply baseAdv_fix
        intro hb
        cases hab : a b
        · rfl
        · exact absurd ⟨hb, hab⟩ hg
      rw [hfix]

/-- Whenever `total_segs ≤ 2^32 - 2` the base slide cannot wrap: the C
loop terminates and computes exactly the wrap-free `baseAdv`. -/
theorem baseSlide_eq_adv (total : Nat) (htot : total ≤ 2 ^ 32 - 2)
    (a : Nat → Bool) (b : Nat) :
    baseSlide a total b = some (baseAdv a total b) :=
  baseSlideFuel_eq total htot a (2 ^ 32 + 1) b (by omega) (by omega)

/-- If every `uint32` value satisfies the base-slide guard, the loop never
exits: divergence of `while (base <= total_segs && acked[base]) base++;`
over a fully-acked `uint32` range. -/
theorem baseSlideFuel_none (a : Nat → Bool) (total : Nat)
    (hall : ∀ b, b < 2 ^ 32 → b ≤ total ∧ a b = true) :
    ∀ (fuel b : Nat), b < 2 ^ 32 → baseSlideFuel a total fuel b = none := by
  intro fuel
  induction fuel with
  | zero => intro b _; rfl
  | succ fuel ih =>
    intro b hb
    simp only [baseSlideFuel]
    rw [if_pos (hall b hb)]
    exact ih _ (Nat.mod_lt _ (by norm_num))

/-- Below the `uint32` wrap threshold, faithful ACK processing terminates
and produces exactly the wrap-free state `ackStepT`. -/
theorem ackStep_eq_T (st : SState) (cum mask : Nat)
    (htot : st.totalSegs ≤ 2 ^ 32 - 2) :
    ackStep st cum mask = some (ackStepT st cum mask) := by
  have hmin : min cum st.totalSegs ≤ 2 ^ 32 - 2 :=
    le_trans (min_le_right _ _) htot
  simp only [ackStep, ackCum_eq_set cum st.totalSegs hmin,
    baseSlide_eq_adv st.totalSegs htot]
  rfl

/-- Which bits are set after the sender processes an ACK `(cum, mask)`:
exactly the old ones, the in-range cumulative interval, and the in-range
SACK positions. -/
theorem ackStepT_acked_iff (st : SState) (cum mask k : Nat) :
    ((ackStepT st cum mask).acked k = true)
      ↔ (st.acked k = true
         ∨ (st.base ≤ k ∧ k ≤ cum ∧ k ≤ st.totalSegs)
         ∨ (∃ i, i < 64 ∧ mask.testBit i = true ∧
              (cum + 1 + i) % 2 ^ 32 = k ∧ k ≤ st.totalSegs)) := by
  show (ackMask (ackCumSet st.acked st.base cum st.totalSegs) cum mask st.totalSegs k
        = true) ↔ _
  rw [ackMask_mem, ackCumSet_mem]
  tauto

theorem ackStepT_acked_mono (st : SState) (cum mask k : Nat)
    (h : st.acked k = true) : (ackStepT st cum mask).acked k = true :=
  (ackStepT_acked_iff st cum mask k).mpr (Or.inl h)

theorem ackStepT_base_eq (st : SState) (cum mask : Nat) :
    (ackStepT st cum mask).base
      = baseAdv (ackStepT st cum mask).acked st.totalSegs
          (baseAdv (ackCumSet st.acked st.base cum st.totalSegs)
            st.totalSegs st.base) := rfl

theorem ackStepT_base_ge (st : SState) (cum mask : Nat) :
    st.base ≤ (ackStepT st cum mask).base := by
  rw [ackStepT_base_eq]
  exact le_trans (baseAdv_le _ _ _) (baseAdv_le _ _ _)

theorem ackStepT_acked_def (st : SState) (cum mask : Nat) :
    (ackStepT st cum mask).acked
      = ackMask (ackCumSet st.acked st.base cum st.totalSegs) cum mask st.totalSegs :=
  rfl

theorem ackStepT_base_filled (st : SState) (cum mask : Nat)
    (hinv : ∀ j, 1 ≤ j → j < st.base → st.acked j = true) :
    ∀ j, 1 ≤ j → j < (ackStepT st cum mask).base →
      (ackStepT st cum mask).acked j = true := by
  intro j hj1 hj2
  rw [ackStepT_base_eq] at hj2
  rcases Nat.lt_or_ge j st.base with hlt | hge
  · exact ackStepT_acked_mono st cum mask j (hinv j hj1 hlt)
  rcases Nat.lt_or_ge j (baseAdv (ackCumSet st.acked st.base cum st.totalSegs)
      st.totalSegs st.base) with hlt1 | hge1
  · have h1 := baseAdv_filled _ _ _ j hge hlt1
    rw [ackStepT_acked_def]
    exact (ackMask_mem (ackCumSet st.acked st.base cum st.totalSegs)
      cum mask st.totalSegs j).mpr (Or.inl h1)
  · exact baseAdv_filled _ _ _ j hge1 hj2

theorem ackStepT_base_stop (st : SState) (cum mask : Nat)
    (h : (ackStepT st cum mask).base ≤ st.totalSegs) :
    (ackStepT st cum mask).acked ((ackStepT st cum mask).base) = false := by
  rw [ackStepT_base_eq] at h ⊢
  exact baseAdv_stop _ _ _ h

theorem ackStepT_base_bound (st : SState) (cum mask : Nat)
    (h : st.base ≤ st.totalSegs + 1) :
    (ackStepT st cum mask).base ≤ st.totalSegs + 1 := by
  rw [ackStepT_base_eq]
  exact baseAdv_le_bound _ _ _ (baseAdv_le_bound _ _ _ h)

theorem ackStepT_txCnt (st : SState) (cum mask : Nat) :
    (ackStepT st cum mask).txCnt = st.txCnt := rfl

theorem ackStepT_lastSent (st : SState) (cum mask : Nat) :
    (ackStepT st cum mask).lastSent = st.lastSent := rfl

theorem ackStepT_total (st : SState) (cum mask : Nat) :
    (ackStepT st cum mask).totalSegs = st.totalSegs := rfl

theorem ackStepT_next (st : SState) (cum mask : Nat) :
    (ackStepT st cum mask).nextToSend = st.nextToSend := rfl

/-! ### The sender's running invariant -/

/-- Invariant of the sender's bulk loop: the window pointers are ordered,
everything below `base` is acked, acked segments were transmitted, only
already-emitted segments have a positive transmission count, no count
exceeds the retry cap, and the segment count stays below the `uint32` wrap
threshold of the ACK-processing loops. -/
structure SInv (retries : Nat) (st : SState) : Prop where
  base_pos : 1 ≤ st.base
  base_le : st.base ≤ st.nextToSend
  next_le : st.nextToSend ≤ st.totalSegs + 1
  below : ∀ k, 1 ≤ k → k < st.base → st.acked k = true
  acked_sent : ∀ k, st.acked k = true → 1 ≤ st.txCnt k
  sent_window : ∀ k, 1 ≤ st.txCnt k → 1 ≤ k ∧ k < st.nextToSend
  tx_le : ∀ k, st.txCnt k ≤ retries
  total_ok : st.totalSegs ≤ 2 ^ 32 - 2

theorem SInv_initS (retries total : Nat) (htot : total ≤ 2 ^ 32 - 2) :
    SInv retries (initS total) := by
  constructor <;> simp [initS] <;> omega

theorem SInv_ackStepT (retries : Nat) (st : SState) (cum mask : Nat)
    (h : SInv retries st)
    (honest : ∀ s, st.acked s = false → (ackStepT st cum mask).acked s = true →
      1 ≤ st.txCnt s) :
    SInv retries (ackStepT st cum mask) := by
  have hacked_sent : ∀ k, (ackStepT st cum mask).acked k = true → 1 ≤ st.txCnt k := by
    intro k hk
    cases hok : st.acked k
    · exact honest k hok hk
    · exact h.acked_sent k hok
  have hbase_le : (ackStepT st cum mask).base ≤ st.nextToSend := by
    by_contra hlt
    push_neg at hlt
    have h1 : 1 ≤ st.nextToSend := le_trans h.base_pos h.base_le
    have hnext : (ackStepT st cum mask).acked st.nextToSend = true :=
      ackStepT_base_filled st cum mask h.below st.nextToSend h1 hlt
    have h2 := (h.sent_window _ (hacked_sent _ hnext)).2
    omega
  constructor
  · exact le_trans h.base_pos (ackStepT_base_ge st cum mask)
  · rw [ackStepT_next]; exact hbase_le
  · rw [ackStepT_next, ackStepT_total]; exact h.next_le
  · exact ackStepT_base_filled st cum mask h.below
  · intro k hk; rw [ackStepT_txCnt]; exact hacked_sent k hk
  · intro k hk
    rw [ackStepT_txCnt] at hk
    rw [ackStepT_next]
    exact h.sent_window k hk
  · intro k; rw [ackStepT_txCnt]; exact h.tx_le k
  · rw [ackStepT_total]; exact h.total_ok

theorem SInv_sendNewFuel (retries win now : Nat) (sendok : Nat → Bool)
    (hR : 1 ≤ retries) :
    ∀ f st, SInv retries st → SInv retries (sendNewFuel win now sendok f st) := by
  intro f
  induction f with
  | zero => intro st h; exact h
  | succ f ih =>
    intro st h
    simp only [sendNewFuel]
    split
    · rename_i hguard
      apply ih
      have hnext_le : st.nextToSend ≤ st.totalSegs :=
        of_decide_eq_true ((Bool.and_eq_true _ _).mp hguard).1
      have hnext_pos : 1 ≤ st.nextToSend := le_trans h.base_pos h.base_le
      split
      · have htx0 : st.txCnt st.nextToSend = 0 := by
          by_contra hne
          have h1 : 1 ≤ st.txCnt st.nextToSend := by omega
          have h2 := (h.sent_window _ h1).2
          omega
        constructor
        · exact h.base_pos
        · exact le_trans h.base_le (Nat.le_succ _)
        · show st.nextToSend + 1 ≤ st.totalSegs + 1
          omega
        · exact h.below
        · intro k hk
          have h1 := h.acked_sent k hk
          show 1 ≤ (if k = st.nextToSend then st.txCnt k + 1 else st.txCnt k)
          split <;> omega
        · intro k hk
          show 1 ≤ k ∧ k < st.nextToSend + 1
          by_cases hkn : k = st.nextToSend
          · omega
          · have hk' : 1 ≤ st.txCnt k := by
              simpa [hkn] using hk
            have h1 := h.sent_window k hk'
            omega
        · intro k
          show (if k = st.nextToSend then st.txCnt k + 1 else st.txCnt k) ≤ retries
          by_cases hkn : k = st.nextToSend
          · subst hkn
            simp [htx0]
            omega
          · simp [hkn, h.tx_le k]
        · exact h.total_ok
      · constructor
        · exact h.base_pos
        · exact le_trans h.base_le (Nat.le_succ _)
        · show st.nextToSend + 1 ≤ st.totalSegs + 1
          omega
        · exact h.below
        · intro k hk
          exact h.acked_sent k hk
        · intro k hk
          have h1 := h.sent_window k hk
          show 1 ≤ k ∧ k < st.nextToSend + 1
          omega
        · intro k
          exact h.tx_le k
        · exact h.total_ok
    · exact h

theorem SInv_sendNewLoop (retries win now : Nat) (sendok : Nat → Bool)
    (hR : 1 ≤ retries) (st : SState) (h : SInv retries st) :
    SInv retries (sendNewLoop win now sendok st) :=
  SInv_sendNewFuel retries win now sendok hR _ st h

theorem retxScanAux_error_code (retries rto now : Nat) :
    ∀ (L : List Nat) (st : SState) (c : Nat),
      (retxScanAux retries rto now L st).2 = .error c → c = 1 := by
  intro L
  induction L with
  | nil => intro st c h; simp [retxScanAux] at h
  | cons s rest ih =>
    intro st c h
    simp only [retxScanAux] at h
    split at h
    · exact ih st c h
    · split at h
      · exact ih st c h
      · split at h
        · simp at h
          omega
        · split at h
          · exact ih _ c h
          · exact ih st c h

theorem SInv_retxScanAux (retries rto now : Nat) :
    ∀ (L : List Nat) (st : SState),
      (∀ s, s ∈ L → 1 ≤ s ∧ s < st.nextToSend) →
      SInv retries st →
      ∀ st', (retxScanAux retries rto now L st).2 = .ok st' →
        SInv retries st' := by
  intro L
  induction L with
  | nil =>
    intro st hL h st' hok
    simp only [retxScanAux] at hok
    injection hok with he
    exact he ▸ h
  | cons s rest ih =>
    intro st hL h st' hok
    have hmem := hL s (List.mem_cons_self _ _)
    simp only [retxScanAux] at hok
    split at hok
    · exact ih st (fun x hx => hL x (List.mem_cons_of_mem _ hx)) h st' hok
    · split at hok
      · exact ih st (fun x hx => hL x (List.mem_cons_of_mem _ hx)) h st' hok
      · split at hok
        · simp at hok
        · split at hok
          · rename_i hntx hstale
            apply ih _ ?_ ?_ st' hok
            · intro x hx
              exact hL x (List.mem_cons_of_mem _ hx)
            · have htx_lt : st.txCnt s < retries := by omega
              constructor
              · exact h.base_pos
              · exact h.base_le
              · exact h.next_le
              · exact h.below
              · intro k hk
                have h1 := h.acked_sent k hk
                show 1 ≤ (if k = s then st.txCnt k + 1 else st.txCnt k)
                split <;> omega
              · intro k hk
                show 1 ≤ k ∧ k < st.nextToSend
                by_cases hks : k = s
                · subst hks; exact hmem
                · have hk' : 1 ≤ st.txCnt k := by simpa [hks] using hk
                  exact h.sent_window k hk'
              · intro k
                show (if k = s then st.txCnt k + 1 else st.txCnt k) ≤ retries
                by_cases hks : k = s
                · subst hks; simp; omega
                · simp [hks, h.tx_le k]
              · exact h.total_ok
          · exact ih st (fun x hx => hL x (List.mem_cons_of_mem _ hx)) h st' hok

/-- When the retransmission scan aborts, its exit code is 1 and there is an
unacked scanned segment that exhausted its retry budget and was not
retransmitted by the scan. -/
theorem retxScanAux_abort (retries rto now : Nat) :
    ∀ (L : List Nat) (st : SState), L.Nodup →
      (retxScanAux retries rto now L st).2 = .error 1 →
      ∃ s, s ∈ L ∧ 1 ≤ s ∧ s ≤ st.totalSegs ∧ st.acked s = false ∧
        retries ≤ st.txCnt s ∧ s ∉ (retxScanAux retries rto now L st).1 := by
  intro L
  induction L with
  | nil => intro st _ h; simp [retxScanAux] at h
  | cons s rest ih =>
    intro st hnd herr
    have hnd' := (List.nodup_cons.mp hnd).2
    have hsrest := (List.nodup_cons.mp hnd).1
    simp only [retxScanAux] at herr ⊢
    split at herr
    · rename_i hg1
      rw [if_pos hg1] at *
      obtain ⟨x, hx, hall⟩ := ih st hnd' herr
      exact ⟨x, List.mem_cons_of_mem _ hx, hall⟩
    · rename_i hg1
      rw [if_neg hg1]
      split at herr
      · rename_i hg2
        rw [if_pos hg2]
        obtain ⟨x, hx, hall⟩ := ih st hnd' herr
        exact ⟨x, List.mem_cons_of_mem _ hx, hall⟩
      · rename_i hg2
        rw [if_neg hg2]
        split at herr
        · rename_i hg3
          rw [if_pos hg3]
          refine ⟨s, List.mem_cons_self _ _, by omega, by omega, ?_, hg3, ?_⟩
          · cases hks : st.acked s
            · rfl
            · exact absurd hks hg2
          · simp
        · rename_i hg3
          rw [if_neg hg3]
          split at herr
          · rename_i hg4
            rw [if_pos hg4]
            obtain ⟨x, hx, hx1, hxt, hxa, hxc, hxs⟩ := ih _ hnd' herr
            have hxs' : x ≠ s := fun he => hsrest (he ▸ hx)
            refine ⟨x, List.mem_cons_of_mem _ hx, hx1, hxt, hxa, ?_, ?_⟩
            · simpa [hxs'] using hxc
            · intro hmem
              rcases List.mem_cons.mp hmem with he | hmem'
              · exact hxs' he
              · exact hxs hmem'
          · rename_i hg4
            rw [if_neg hg4]
            obtain ⟨x, hx, hall⟩ := ih st hnd' herr
            exact ⟨x, List.mem_cons_of_mem _ hx, hall⟩

/-- Conversely, an unacked scanned segment that exhausted its retry budget
makes the scan abort. -/
theorem retxScanAux_abort_of_bad (retries rto now : Nat) :
    ∀ (L : List Nat) (st : SState), L.Nodup →
      (∃ s, s ∈ L ∧ 1 ≤ s ∧ s ≤ st.totalSegs ∧ st.acked s = false ∧
        retries ≤ st.txCnt s) →
      (retxScanAux retries rto now L st).2 = .error 1 := by
  intro L
  induction L with
  | nil => intro st _ h; simp at h
  | cons s rest ih =>
    intro st hnd hbad
    have hnd' := (List.nodup_cons.mp hnd).2
    have hsrest := (List.nodup_cons.mp hnd).1
    obtain ⟨x, hx, hx1, hxt, hxa, hxc⟩ := hbad
    simp only [retxScanAux]
    rcases List.mem_cons.mp hx with rfl | hxr
    · rw [if_neg (by omega), if_neg (by simp [hxa]), if_pos hxc]
    · split
      · exact ih st hnd' ⟨x, hxr, hx1, hxt, hxa, hxc⟩
      · split
        · exact ih st hnd' ⟨x, hxr, hx1, hxt, hxa, hxc⟩
        · split
          · rfl
          · split
            · rename_i hg4
              have hxs' : x ≠ s := fun he => hsrest (he ▸ hxr)
              show (retxScanAux retries rto now rest _).2 = _
              apply ih _ hnd'
              exact ⟨x, hxr, hx1, hxt, by simpa [hxs'] using hxa, by simpa [hxs'] using hxc⟩
            · exact ih st hnd' ⟨x, hxr, hx1, hxt, hxa, hxc⟩

/-- The sender's invariant holds at the end of every honest run, the run
never hangs in ACK processing (the invariant keeps the segment count below
the `uint32` wrap threshold), and the only abort code is 1. -/
theorem srun_inv (win retries rto : Nat) (hR : 1 ≤ retries) :
    ∀ (es : List SEvent) (st : SState), SInv retries st →
      GoodRun win retries rto st es →
      srun win retries rto st es ≠ none ∧
      (∀ st', srun win retries rto st es = some (.ok st') → SInv retries st') ∧
      (∀ c, srun win retries rto st es = some (.error c) → c = 1) := by
  intro es
  induction es with
  | nil =>
    intro st h _
    refine ⟨by simp [srun], ?_, ?_⟩
    · intro st' hok
      simp only [srun] at hok
      injection hok with he
      injection he with he2
      exact he2 ▸ h
    · intro c hc
      simp [srun] at hc
  | cons e es ih =>
    intro st h hgood
    obtain ⟨hhon, hrest⟩ := hgood
    simp only [srun]
    cases e with
    | emit now sendok =>
      simp only [sstep] at hrest ⊢
      exact ih _ (SInv_sendNewLoop retries win now sendok hR st h) hrest
    | recvAck cum mask =>
      simp only [sstep, ackStep_eq_T st cum mask h.total_ok,
        Option.map_some'] at hrest ⊢
      exact ih _ (SInv_ackStepT retries st cum mask h hhon) hrest
    | retx now =>
      simp only [sstep] at hrest ⊢
      cases hr : (retxScan retries rto now st).2 with
      | ok st1 =>
        rw [hr] at hrest
        have hL : ∀ s, s ∈ List.range' st.base (st.nextToSend - st.base) →
            1 ≤ s ∧ s < st.nextToSend := by
          intro s hs
          rw [List.mem_range'_1] at hs
          have h1 := h.base_pos
          omega
        exact ih st1 (SInv_retxScanAux retries rto now _ st hL h st1 hr) hrest
      | error c =>
        refine ⟨Option.some_ne_none _, ?_, ?_⟩
        · intro st' h'
          injection h' with he
          injection he
        · intro c' hc'
          injection hc' with he
          injection he with he2
          subst he2
          exact retxScanAux_error_code retries rto now _ st c hr

/-! ### Claim theorems -/

/-- Claim C9, counterexample: at `T = 140000`, `P = 70000` (inside the
claim's domain `T > 0`, `P ≥ 512`) the `(uint16_t)` cast truncates the
length: segment 1 of 2 carries `min(P, T) mod 2^16 = 4464 ≠ P` bytes, and
byte 5000 lies in neither segment's range (`[0, 4464)` and
`[70000, 74464)`), so the ranges do not partition `[0, T)`. -/
theorem segmentation_truncation_counterexample :
    (0 : Nat) < 140000 ∧ (512 : Nat) ≤ 70000 ∧
    totalSegsOf 140000 70000 = 2 ∧
    segLen 140000 70000 1 = 4464 ∧
    segLen 140000 70000 1 ≠ 70000 ∧
    (5000 : Nat) < 140000 ∧
    ¬ (segOffset 70000 1 ≤ 5000 ∧
        5000 < segOffset 70000 1 + segLen 140000 70000 1) ∧
    ¬ (segOffset 70000 2 ≤ 5000 ∧
        5000 < segOffset 70000 2 + segLen 140000 70000 2) := by
  decide

/-- Claim C9 (amended): for every total length `T > 0` and segment size
`P ≥ 512` small enough that the `(uint16_t)` cast of the length is exact
(`P < 2^16`), with the segment count fitting `uint32`, the segment count
equals `⌈T/P⌉`, the per-segment length computation yields exactly `P`
below the last segment and a value in `[1, P]` at the last one, and the
byte ranges of the segments exactly partition `[0, T)`.  (For
`P ≥ 2^16` the cast truncates and the partition fails:
`segmentation_truncation_counterexample`.) -/
theorem segmentation_partition (t p : Nat) (hT : 0 < t) (hP : 512 ≤ p)
    (hP2 : p < 2 ^ 16) (hN : t ≤ (2 ^ 32 - 1) * p) :
    totalSegsOf t p = (t + p - 1) / p ∧
    (∀ k, 1 ≤ k → k < totalSegsOf t p → segLen t p k = p) ∧
    1 ≤ segLen t p (totalSegsOf t p) ∧ segLen t p (totalSegsOf t p) ≤ p ∧
    (∀ k, 1 ≤ k → k ≤ totalSegsOf t p →
      segOffset p k + segLen t p k ≤ t) ∧
    (∀ b, b < t → ∃ k, (1 ≤ k ∧ k ≤ totalSegsOf t p ∧
      segOffset p k ≤ b ∧ b < segOffset p k + segLen t p k) ∧
      (∀ k', 1 ≤ k' → k' ≤ totalSegsOf t p → segOffset p k' ≤ b →
        b < segOffset p k' + segLen t p k' → k' = k)) := by
  have h0 : 0 < p := by omega
  have hseg : ∀ k, segLen t p k = min p (t - segOffset p k) := by
    intro k
    unfold segLen
    exact Nat.mod_eq_of_lt (lt_of_le_of_lt (min_le_left _ _) hP2)
  have hlt64 : t + p - 1 < 2 ^ 64 := by
    have h1 : (2 ^ 32 - 1) * p ≤ (2 ^ 32 - 1) * 2 ^ 16 :=
      Nat.mul_le_mul_left _ (le_of_lt hP2)
    have h2 : (2 ^ 32 - 1) * 2 ^ 16 < 2 ^ 64 := by norm_num
    omega
  have hceil : t + p - 1 < 2 ^ 32 * p := by
    have h1 : (2 ^ 32 - 1) * p + p = 2 ^ 32 * p := by
      have h2 : 2 ^ 32 - 1 + 1 = 2 ^ 32 := by norm_num
      calc (2 ^ 32 - 1) * p + p = (2 ^ 32 - 1 + 1) * p := (Nat.succ_mul _ _).symm
        _ = 2 ^ 32 * p := by rw [h2]
    omega
  have hNlt : (t + p - 1) / p < 2 ^ 32 := by
    rw [Nat.div_lt_iff_lt_mul h0]
    calc t + p - 1 < 2 ^ 32 * p := hceil
      _ = 2 ^ 32 * p := rfl
  have hts : totalSegsOf t p = (t + p - 1) / p := by
    unfold totalSegsOf
    rw [Nat.mod_eq_of_lt hlt64, Nat.mod_eq_of_lt hNlt]
  rw [hts]
  set n := (t + p - 1) / p with hn
  have hdm := Nat.mod_add_div' (t + p - 1) p
  rw [← hn] at hdm
  have hr : (t + p - 1) % p < p := Nat.mod_lt _ h0
  have hn1 : 1 ≤ n := by
    rw [hn, Nat.le_div_iff_mul_le h0]
    omega
  have hnp1 : (n - 1) * p + p = n * p := by
    have h2 : n - 1 + 1 = n := by omega
    calc (n - 1) * p + p = (n - 1 + 1) * p := (Nat.succ_mul _ _).symm
      _ = n * p := by rw [h2]
  have key1 : t ≤ n * p := by omega
  have key2 : (n - 1) * p < t := by omega
  refine ⟨rfl, ?_, ?_, ?_, ?_, ?_⟩
  · intro k hk1 hk2
    have hk1p : (k - 1) * p + p = k * p := by
      have h2 : k - 1 + 1 = k := by omega
      calc (k - 1) * p + p = (k - 1 + 1) * p := (Nat.succ_mul _ _).symm
        _ = k * p := by rw [h2]
    have hkp : k * p ≤ (n - 1) * p := Nat.mul_le_mul_right p (by omega)
    rw [hseg]
    unfold segOffset
    have hple : p ≤ t - (k - 1) * p := by omega
    exact min_eq_left hple
  · rw [hseg]
    unfold segOffset
    rcases Nat.le_total p (t - (n - 1) * p) with hc | hc
    · rw [min_eq_left hc]; omega
    · rw [min_eq_right hc]; omega
  · rw [hseg]
    unfold segOffset
    exact Nat.min_le_left _ _
  · intro k hk1 hk2
    have hk1p : (k - 1) * p ≤ (n - 1) * p := Nat.mul_le_mul_right p (by omega)
    rw [hseg]
    unfold segOffset
    rcases Nat.le_total p (t - (k - 1) * p) with hc | hc
    · rw [min_eq_left hc]; omega
    · rw [min_eq_right hc]; omega
  · intro b hb
    have hq := Nat.mod_add_div' b p
    have hqr : b % p < p := Nat.mod_lt _ h0
    obtain ⟨q, hqdef⟩ : ∃ q, b / p = q := ⟨b / p, rfl⟩
    obtain ⟨r, hrdef⟩ : ∃ r, b % p = r := ⟨b % p, rfl⟩
    rw [hqdef, hrdef] at hq
    rw [hrdef] at hqr
    refine ⟨q + 1, ⟨by omega, ?_, ?_, ?_⟩, ?_⟩
    · -- q + 1 ≤ n
      by_contra hcon
      push_neg at hcon
      have h1 : n ≤ q := by omega
      have h2 : n * p ≤ q * p := Nat.mul_le_mul_right p h1
      omega
    · show (q + 1 - 1) * p ≤ b
      have h2 : q + 1 - 1 = q := by omega
      rw [h2]
      omega
    · rw [hseg]
      show b < (q + 1 - 1) * p + min p (t - (q + 1 - 1) * p)
      have h2 : q + 1 - 1 = q := by omega
      rw [h2]
      rcases Nat.le_total p (t - q * p) with hc | hc
      · rw [min_eq_left hc]; omega
      · rw [min_eq_right hc]; omega
    · intro k' hk1 hk2 hoff hlen
      unfold segOffset at hoff
      rw [hseg] at hlen
      unfold segOffset at hlen
      have hk1p : (k' - 1) * p + p = k' * p := by
        have h2 : k' - 1 + 1 = k' := by omega
        calc (k' - 1) * p + p = (k' - 1 + 1) * p := (Nat.succ_mul _ _).symm
          _ = k' * p := by rw [h2]
      have hup : b < (k' - 1) * p + p := by
        have := Nat.min_le_left p (t - (k' - 1) * p)
        omega
      have hdiv : b / p = k' - 1 := by
        apply Nat.div_eq_of_lt_le
        · exact hoff
        · have h2 : (k' - 1 + 1) * p = (k' - 1) * p + p := Nat.succ_mul _ _
          omega
      rw [hqdef] at hdiv
      omega

/-- Receiver state before any START is accepted (`started = 0`, no bitmap,
no sink). -/
def initR (p : Nat) : RState :=
  { payloadMax := p, started := false, finished := false, expectedTotal := 0,
    totalSegs := 0, cumAck := 0, hv := fun _ => false, sink := fun _ => 0,
    received := 0, handshakePeer := 0 }

/-- Claim C10: every DATA or END packet that arrives before the first
well-formed START has been accepted is silently discarded: no state is
allocated or changed and no response is sent. -/
theorem pre_start_discard (st : RState) (inp : RInput)
    (hs : st.started = false)
    (hty : dgType inp.dgram = 1 ∨ dgType inp.dgram = 3) :
    rstep st inp = (st, []) := by
  by_cases h7 : inp.dgram.length < 7
  · exact rstep_short st inp h7
  · exact rstep_not_started st inp (by omega) hs hty

theorem pre_start_discard_witness :
    rstep (initR 512) ⟨5, [1, 0, 0, 0, 1, 0, 0], fun _ => 0⟩ = (initR 512, []) ∧
    rstep (initR 512) ⟨5, [3, 0, 0, 0, 3, 0, 0], fun _ => 0⟩ = (initR 512, []) :=
  ⟨pre_start_discard (initR 512) ⟨5, [1, 0, 0, 0, 1, 0, 0], fun _ => 0⟩ rfl
      (Or.inl (by decide)),
   pre_start_discard (initR 512) ⟨5, [3, 0, 0, 0, 3, 0, 0], fun _ => 0⟩ rfl
      (Or.inr (by decide))⟩

/-- Claim C8, counterexample: during an active session whose handshake peer
is address 1, a START arriving from address 2 is answered with an ACK,
whereas the claim requires STARTs from other peers to be ignored with no
response. -/
theorem start_other_peer_counterexample :
    (rstep (startedState 600 512 1) ⟨2, [2, 0, 0, 0, 0, 0, 8], fun _ => 0⟩).2
        = [⟨2, 0, 0⟩] ∧
    (startedState 600 512 1).handshakePeer = 1 ∧ (2 : Nat) ≠ 1 := by
  decide

/-- Claim C8 (amended): any START (seq 0) received while a session is
active — from the handshake peer or from any other address — makes the
receiver re-emit an ACK carrying the current `cum_ack` (with a zero SACK
mask), with no reallocation and no other state change. -/
theorem start_during_session (st : RState) (inp : RInput)
    (h7 : 7 ≤ inp.dgram.length) (hs : st.started = true)
    (hty : dgType inp.dgram = 2) (hseq : dgSeq inp.dgram = 0) :
    rstep st inp = (st, [⟨inp.src, st.cumAck, 0⟩]) :=
  rstep_start_active st inp h7 hs hty hseq

theorem start_during_session_witness :
    rstep (startedState 600 512 1) ⟨2, [2, 0, 0, 0, 0, 0, 8], fun _ => 0⟩
      = (startedState 600 512 1, [⟨2, 0, 0⟩]) :=
  start_during_session (startedState 600 512 1)
    ⟨2, [2, 0, 0, 0, 0, 0, 8], fun _ => 0⟩
    (by decide) rfl (by decide) (by decide)

/-- Claim C6, counterexample: a duplicate DATA (`have[1]` already set)
whose `len` field is 600 > `payload_max` = 512 is not discarded — the
receiver answers it with an ACK, because the oversize check sits inside the
fresh-segment branch. -/
theorem oversize_dup_ack_counterexample :
    (rstep (rrun (startedState 600 512 1) [⟨1, [1, 0, 0, 0, 1, 0, 1, 42], fun _ => 0⟩])
        ⟨3, [1, 0, 0, 0, 1, 2, 88], fun _ => 0⟩).2 = [⟨3, 1, 0⟩] ∧
    dgLen [1, 0, 0, 0, 1, 2, 88] = 600 ∧
    (rrun (startedState 600 512 1) [⟨1, [1, 0, 0, 0, 1, 0, 1, 42], fun _ => 0⟩]).payloadMax
        = 512 ∧
    (rrun (startedState 600 512 1) [⟨1, [1, 0, 0, 0, 1, 0, 1, 42], fun _ => 0⟩]).hv 1
        = true := by
  decide

/-- Claim C6 (amended): a DATA packet with sequence 0 or above `N` is
discarded with no ACK; a DATA packet for a segment not yet received whose
`len` field exceeds `P` is discarded with no ACK; but a duplicate DATA
packet is acknowledged regardless of its `len` field, with no state
change. -/
theorem data_discard_amended :
    (∀ (st : RState) (inp : RInput), 7 ≤ inp.dgram.length →
      st.started = true → dgType inp.dgram = 1 →
      (dgSeq inp.dgram = 0 ∨ st.totalSegs < dgSeq inp.dgram) →
      rstep st inp = (st, [])) ∧
    (∀ (st : RState) (inp : RInput), 7 ≤ inp.dgram.length →
      st.started = true → dgType inp.dgram = 1 →
      1 ≤ dgSeq inp.dgram → dgSeq inp.dgram ≤ st.totalSegs →
      st.hv (dgSeq inp.dgram) = false → st.payloadMax < dgLen inp.dgram →
      rstep st inp = (st, [])) ∧
    (∀ (st : RState) (inp : RInput), 7 ≤ inp.dgram.length →
      st.started = true → dgType inp.dgram = 1 →
      1 ≤ dgSeq inp.dgram → dgSeq inp.dgram ≤ st.totalSegs →
      st.hv (dgSeq inp.dgram) = true →
      rstep st inp = (st, [⟨inp.src, st.cumAck, sackMaskOf st⟩])) :=
  ⟨fun st inp h7 hs hty hseq => rstep_data_invalid st inp h7 hs hty hseq,
   fun st inp h7 hs hty h1 h2 hf hl =>
     rstep_data_oversize st inp h7 hs hty h1 h2 hf hl,
   fun st inp h7 hs hty h1 h2 hd => rstep_data_dup st inp h7 hs hty h1 h2 hd⟩

theorem data_discard_amended_witness :
    rstep (startedState 600 512 1) ⟨4, [1, 0, 0, 0, 3, 0, 1, 9], fun _ => 0⟩
        = (startedState 600 512 1, []) ∧
    rstep (startedState 600 512 1) ⟨4, [1, 0, 0, 0, 1, 2, 88], fun _ => 0⟩
        = (startedState 600 512 1, []) ∧
    rstep (rrun (startedState 600 512 1) [⟨1, [1, 0, 0, 0, 1, 0, 1, 42], fun _ => 0⟩])
        ⟨3, [1, 0, 0, 0, 1, 2, 88], fun _ => 0⟩
      = (rrun (startedState 600 512 1) [⟨1, [1, 0, 0, 0, 1, 0, 1, 42], fun _ => 0⟩],
         [⟨3,
           (rrun (startedState 600 512 1)
             [⟨1, [1, 0, 0, 0, 1, 0, 1, 42], fun _ => 0⟩]).cumAck,
           sackMaskOf (rrun (startedState 600 512 1)
             [⟨1, [1, 0, 0, 0, 1, 0, 1, 42], fun _ => 0⟩])⟩]) :=
  ⟨data_discard_amended.1 _ _ (by decide) rfl (by decide) (Or.inr (by decide)),
   data_discard_amended.2.1 _ _ (by decide) rfl (by decide) (by decide) (by decide)
     (by decide) (by decide),
   data_discard_amended.2.2 _ _ (by decide) (by decide) (by decide) (by decide)
     (by decide) (by decide)⟩

/-- Claim C5, counterexample: a receiver that holds segment 2 but not
segment 1 (`cum_ack = 0`), when answering a duplicate START, emits an ACK
whose SACK mask is zero — bit 1 is clear although segment
`cum_ack + 1 + 1 = 2` has been received and is in range, contradicting the
claimed equivalence for ACKs emitted in response to START. -/
theorem sack_mask_counterexample :
    (rstep (rrun (startedState 600 512 1) [⟨1, [1, 0, 0, 0, 2, 0, 1, 99], fun _ => 0⟩])
        ⟨1, [2, 0, 0, 0, 0, 0, 8], fun _ => 0⟩).2 = [⟨1, 0, 0⟩] ∧
    (rrun (startedState 600 512 1) [⟨1, [1, 0, 0, 0, 2, 0, 1, 99], fun _ => 0⟩]).cumAck
        = 0 ∧
    (rrun (startedState 600 512 1) [⟨1, [1, 0, 0, 0, 2, 0, 1, 99], fun _ => 0⟩]).hv
        (0 + 1 + 1) = true ∧
    0 + 1 + 1 ≤ (rrun (startedState 600 512 1)
        [⟨1, [1, 0, 0, 0, 2, 0, 1, 99], fun _ => 0⟩]).totalSegs ∧
    Nat.testBit 0 1 = false := by
  decide

/-- Claim C5 (amended): for the SACK masks computed by the DATA and END
branches, bit `i` (`i < 64`) is set iff the `uint32` index
`(cum_ack + 1 + i) mod 2^32` is an in-range received segment (for sessions
with fewer than `2^32 − 64` segments this is the claimed
`cum_ack + 1 + i ≤ N ∧ have[cum_ack+1+i]`); the ACKs emitted in response
to END, duplicate DATA and fresh DATA carry exactly this mask for the
current state, while ACKs emitted in response to START always carry a zero
mask. -/
theorem sack_mask_amended :
    (∀ (st : RState) (i : Nat), i < 64 →
      Nat.testBit (sackMaskOf st) i =
        (decide ((st.cumAck + 1 + i) % 2 ^ 32 ≤ st.totalSegs) &&
          st.hv ((st.cumAck + 1 + i) % 2 ^ 32))) ∧
    (∀ (st : RState) (inp : RInput), 7 ≤ inp.dgram.length →
      st.started = true → dgType inp.dgram = 3 →
      (rstep st inp).2 = [⟨inp.src, st.cumAck, sackMaskOf st⟩]) ∧
    (∀ (st : RState) (inp : RInput), 7 ≤ inp.dgram.length →
      st.started = true → dgType inp.dgram = 1 →
      1 ≤ dgSeq inp.dgram → dgSeq inp.dgram ≤ st.totalSegs →
      st.hv (dgSeq inp.dgram) = true →
      (rstep st inp).2 = [⟨inp.src, st.cumAck, sackMaskOf st⟩]) ∧
    (∀ (st : RState) (inp : RInput), 7 ≤ inp.dgram.length →
      st.started = true → dgType inp.dgram = 1 →
      1 ≤ dgSeq inp.dgram → dgSeq inp.dgram ≤ st.totalSegs →
      st.hv (dgSeq inp.dgram) = false → dgLen inp.dgram ≤ st.payloadMax →
      (rstep st inp).2 = [⟨inp.src, (dataWriteState st inp).cumAck,
        sackMaskOf (dataWriteState st inp)⟩]) ∧
    (∀ (st : RState) (inp : RInput), 7 ≤ inp.dgram.length →
      st.started = true → dgType inp.dgram = 2 → dgSeq inp.dgram = 0 →
      (rstep st inp).2 = [⟨inp.src, st.cumAck, 0⟩]) := by
  refine ⟨fun st i hi => sackMask_testBit st i hi, ?_, ?_, ?_, ?_⟩
  · intro st inp h7 hs hty
    rw [rstep_end st inp h7 hs hty]
  · intro st inp h7 hs hty h1 h2 hd
    rw [rstep_data_dup st inp h7 hs hty h1 h2 hd]
  · intro st inp h7 hs hty h1 h2 hf hl
    rw [rstep_data_fresh st inp h7 hs hty h1 h2 hf hl]
  · intro st inp h7 hs hty hseq
    rw [rstep_start_active st inp h7 hs hty hseq]

theorem sack_mask_amended_witness :
    (Nat.testBit (sackMaskOf (rrun (startedState 600 512 1)
        [⟨1, [1, 0, 0, 0, 2, 0, 1, 99], fun _ => 0⟩])) 1 =
      (decide (((rrun (startedState 600 512 1)
          [⟨1, [1, 0, 0, 0, 2, 0, 1, 99], fun _ => 0⟩]).cumAck + 1 + 1) % 2 ^ 32 ≤
        (rrun (startedState 600 512 1)
          [⟨1, [1, 0, 0, 0, 2, 0, 1, 99], fun _ => 0⟩]).totalSegs) &&
        (rrun (startedState 600 512 1)
          [⟨1, [1, 0, 0, 0, 2, 0, 1, 99], fun _ => 0⟩]).hv
          (((rrun (startedState 600 512 1)
            [⟨1, [1, 0, 0, 0, 2, 0, 1, 99], fun _ => 0⟩]).cumAck + 1 + 1) % 2 ^ 32))) ∧
    (rstep (startedState 600 512 1) ⟨7, [3, 0, 0, 0, 3, 0, 0], fun _ => 0⟩).2
      = [⟨7, (startedState 600 512 1).cumAck, sackMaskOf (startedState 600 512 1)⟩] ∧
    (rstep (startedState 600 512 1) ⟨8, [2, 0, 0, 0, 0, 0, 8], fun _ => 0⟩).2
      = [⟨8, (startedState 600 512 1).cumAck, 0⟩] :=
  ⟨sack_mask_amended.1 _ 1 (by decide),
   sack_mask_amended.2.1 _ _ (by decide) rfl (by decide),
   sack_mask_amended.2.2.2.2 _ _ (by decide) rfl (by decide) (by decide)⟩

/-- Claim C4, counterexample: at `total_segs = 2^32 - 1` the sender is not
idempotent on duplicate ACKs — it hangs.  The first processing of ACK
`(cum = 2^32 - 3, mask = bit 1)` from `wrapState` terminates (with `base`
wrapped to 0); processing the same ACK a second time first acks
`[0, 2^32 - 3]` in the cumulative loop, after which every `uint32` index
is acked and `≤ total_segs`, so the base-slide `while (base <= total_segs
&& acked[base]) base++` cycles through the whole `uint32` range forever:
the second processing never completes, let alone leaves the state
unchanged. -/
theorem duplicate_ack_wrap_counterexample :
    (ackStep wrapState 4294967293 2).isSome = true ∧
    (ackStep wrapState 4294967293 2).bind
      (fun s1 => ackStep s1 4294967293 2) = none := by
  refine ⟨by decide, ?_⟩
  cases hout : ackStep wrapState 4294967293 2 with
  | none => rfl
  | some s1 =>
    show ackStep s1 4294967293 2 = none
    have hbase : s1.base = 0 := by
      have h : (ackStep wrapState 4294967293 2).map (fun s => s.base)
          = some 0 := by decide
      rw [hout, Option.map_some'] at h
      exact Option.some.inj h
    have htot : s1.totalSegs = 4294967295 := by
      have h : (ackStep wrapState 4294967293 2).map (fun s => s.totalSegs)
          = some 4294967295 := by decide
      rw [hout, Option.map_some'] at h
      exact Option.some.inj h
    have ha94 : s1.acked 4294967294 = true := by
      have h : (ackStep wrapState 4294967293 2).map (fun s => s.acked 4294967294)
          = some true := by decide
      rw [hout, Option.map_some'] at h
      exact Option.some.inj h
    have ha95 : s1.acked 4294967295 = true := by
      have h : (ackStep wrapState 4294967293 2).map (fun s => s.acked 4294967295)
          = some true := by decide
      rw [hout, Option.map_some'] at h
      exact Option.some.inj h
    have hall : ∀ b, b < 2 ^ 32 → b ≤ s1.totalSegs ∧
        ackCumSet s1.acked s1.base 4294967293 s1.totalSegs b = true := by
      intro b hb
      rw [htot, hbase]
      refine ⟨by omega, ?_⟩
      rw [ackCumSet_mem]
      rcases Nat.lt_or_ge b 4294967294 with h | h
      · exact Or.inr ⟨Nat.zero_le _, by omega, by omega⟩
      · have hbv : b = 4294967294 ∨ b = 4294967295 := by omega
        rcases hbv with rfl | rfl
        · exact Or.inl ha94
        · exact Or.inl ha95
    have hnone : baseSlide (ackCumSet s1.acked s1.base 4294967293 s1.totalSegs)
        s1.totalSegs s1.base = none :=
      baseSlideFuel_none _ _ hall _ _ (by rw [hbase]; omega)
    have hmin : min 4294967293 s1.totalSegs ≤ 2 ^ 32 - 2 := by
      rw [htot]
      omega
    simp only [ackStep, ackCum_eq_set 4294967293 s1.totalSegs hmin, hnone]

/-- Claim C4 (amended): a duplicate DATA packet (sequence already marked
received) leaves the receiver's bitmap, `cum_ack` and sink unchanged and
is answered with exactly one ACK; and for a sender whose segment count is
below the `uint32` wrap threshold (`N ≤ 2^32 - 2`), both processings of a
repeated ACK terminate and the second leaves the sender's `acked`,
`tx_cnt`, `sent_ts` and `base` unchanged.  (At `N = 2^32 - 1` the second
processing can hang: `duplicate_ack_wrap_counterexample`.) -/
theorem duplicate_idempotence :
    (∀ (st : RState) (inp : RInput), 7 ≤ inp.dgram.length →
      st.started = true → dgType inp.dgram = 1 →
      1 ≤ dgSeq inp.dgram → dgSeq inp.dgram ≤ st.totalSegs →
      st.hv (dgSeq inp.dgram) = true →
      (rstep st inp).1 = st ∧
      (rstep st inp).2 = [⟨inp.src, st.cumAck, sackMaskOf st⟩]) ∧
    (∀ (st : SState) (cum mask : Nat), st.totalSegs ≤ 2 ^ 32 - 2 →
      ackStep st cum mask = some (ackStepT st cum mask) ∧
      ackStep (ackStepT st cum mask) cum mask
          = some (ackStepT (ackStepT st cum mask) cum mask) ∧
      (ackStepT (ackStepT st cum mask) cum mask).acked
          = (ackStepT st cum mask).acked ∧
      (ackStepT (ackStepT st cum mask) cum mask).base
          = (ackStepT st cum mask).base ∧
      (ackStepT (ackStepT st cum mask) cum mask).txCnt
          = (ackStepT st cum mask).txCnt ∧
      (ackStepT (ackStepT st cum mask) cum mask).lastSent
          = (ackStepT st cum mask).lastSent) := by
  constructor
  · intro st inp h7 hs hty h1 h2 hd
    rw [rstep_data_dup st inp h7 hs hty h1 h2 hd]
    exact ⟨rfl, rfl⟩
  · intro st cum mask htot
    refine ⟨ackStep_eq_T st cum mask htot,
      ackStep_eq_T _ cum mask (by rw [ackStepT_total]; exact htot), ?_⟩
    set st1 := ackStepT st cum mask with hst1
    have hacked : (ackStepT st1 cum mask).acked = st1.acked := by
      funext k
      rw [Bool.eq_iff_iff, ackStepT_acked_iff]
      constructor
      · rintro (h | h | h)
        · exact h
        · apply (ackStepT_acked_iff st cum mask k).mpr
          exact Or.inr (Or.inl
            ⟨le_trans (ackStepT_base_ge st cum mask) h.1, h.2.1, h.2.2⟩)
        · apply (ackStepT_acked_iff st cum mask k).mpr
          exact Or.inr (Or.inr h)
      · intro h
        exact Or.inl h
    have hstop : st1.base ≤ st.totalSegs → st1.acked st1.base = false :=
      ackStepT_base_stop st cum mask
    have hfix1 : baseAdv (ackCumSet st1.acked st1.base cum st1.totalSegs)
        st1.totalSegs st1.base = st1.base := by
      apply baseAdv_fix
      intro hble
      cases hval : ackCumSet st1.acked st1.base cum st1.totalSegs st1.base
      · rfl
      · exfalso
        rcases (ackCumSet_mem _ _ _ _ _).mp hval with h | h
        · rw [hstop hble] at h
          cases h
        · have hk : st1.acked st1.base = true := by
            apply (ackStepT_acked_iff st cum mask _).mpr
            exact Or.inr (Or.inl
              ⟨ackStepT_base_ge st cum mask, h.2.1, h.2.2⟩)
          rw [hstop hble] at hk
          cases hk
    have hbase : (ackStepT st1 cum mask).base = st1.base := by
      rw [ackStepT_base_eq st1 cum mask, hfix1, hacked]
      exact baseAdv_fix _ _ _ hstop
    exact ⟨hacked, hbase, rfl, rfl⟩

theorem duplicate_idempotence_witness :
    ((rstep (rrun (startedState 600 512 1) [⟨1, [1, 0, 0, 0, 1, 0, 1, 42], fun _ => 0⟩])
        ⟨3, [1, 0, 0, 0, 1, 0, 1, 42], fun _ => 0⟩).1
      = rrun (startedState 600 512 1) [⟨1, [1, 0, 0, 0, 1, 0, 1, 42], fun _ => 0⟩] ∧
     (rstep (rrun (startedState 600 512 1) [⟨1, [1, 0, 0, 0, 1, 0, 1, 42], fun _ => 0⟩])
        ⟨3, [1, 0, 0, 0, 1, 0, 1, 42], fun _ => 0⟩).2
      = [⟨3,
          (rrun (startedState 600 512 1)
            [⟨1, [1, 0, 0, 0, 1, 0, 1, 42], fun _ => 0⟩]).cumAck,
          sackMaskOf (rrun (startedState 600 512 1)
            [⟨1, [1, 0, 0, 0, 1, 0, 1, 42], fun _ => 0⟩])⟩]) ∧
    ackStep (initS 3) 2 8 = some (ackStepT (initS 3) 2 8) ∧
    ackStep (ackStepT (initS 3) 2 8) 2 8
        = some (ackStepT (ackStepT (initS 3) 2 8) 2 8) ∧
    (ackStepT (ackStepT (initS 3) 2 8) 2 8).acked = (ackStepT (initS 3) 2 8).acked ∧
    (ackStepT (ackStepT (initS 3) 2 8) 2 8).base = (ackStepT (initS 3) 2 8).base ∧
    (ackStepT (ackStepT (initS 3) 2 8) 2 8).txCnt = (ackStepT (initS 3) 2 8).txCnt ∧
    (ackStepT (ackStepT (initS 3) 2 8) 2 8).lastSent
        = (ackStepT (initS 3) 2 8).lastSent :=
  ⟨duplicate_idempotence.1 _ _ (by decide) (by decide) (by decide) (by decide)
      (by decide) (by decide),
   duplicate_idempotence.2 (initS 3) 2 8 (by decide)⟩

/-- The state `wrapState` satisfies the sender's own running invariant
shape assumed by the ACK-processing claim: `base` is the least unacked
index (everything below it is acked, it is not) and lies in
`[1, total_segs + 1]`. -/
theorem wrapState_least_unacked :
    (∀ k, 1 ≤ k → k < wrapState.base → wrapState.acked k = true) ∧
    wrapState.acked wrapState.base = false ∧
    1 ≤ wrapState.base ∧ wrapState.base ≤ wrapState.totalSegs + 1 := by
  refine ⟨?_, by decide, by decide, by decide⟩
  intro k h1 h2
  have hb : wrapState.base = 4294967295 := rfl
  rw [hb] at h2
  show (decide (1 ≤ k) && decide (k ≤ 4294967294)) = true
  rw [Bool.and_eq_true, decide_eq_true_eq, decide_eq_true_eq]
  omega

/-- Claim C3, counterexample: from `wrapState` (`total_segs = 2^32 - 1`,
`base = 2^32 - 1` the least unacked index), processing the well-formed ACK
`(cum = 2^32 - 3, mask = bit 1)` — whose SACK bit acks the last segment
`2^32 - 1` — terminates, but the `uint32` base slide runs off the end and
wraps: `base` becomes 0.  The claim requires `base` to be the least
unacked index afterwards (here `N + 1 = 2^32`, as every segment is now
acked) and to never decrease; both fail. -/
theorem sender_ack_wrap_counterexample :
    wrapState.base = 4294967295 ∧
    wrapState.totalSegs = 4294967295 ∧
    wrapState.acked 4294967295 = false ∧
    (match ackStep wrapState 4294967293 2 with
     | some st1 => st1.acked 4294967295
     | none => false) = true ∧
    (match ackStep wrapState 4294967293 2 with
     | some st1 => st1.base
     | none => 42) = 0 := by
  refine ⟨rfl, rfl, by decide, by decide, by decide⟩

/-- Claim C3 (amended): whenever the segment count is below the `uint32`
wrap threshold (`N ≤ 2^32 - 2`), processing a well-formed ACK
`(cum, mask)` from a state whose `base` is the least unacked index
terminates (the faithful `uint32` loops compute `ackStepT`), every segment
in `[base, min(cum, N)]` and every in-range SACK position `cum + 1 + i` is
acked, no other acked bit changes (bits never clear, and every newly set
bit is in one of the two groups), and afterwards `base` is again the least
index with `¬acked` (or `N + 1` when complete), having not decreased. -/
theorem sender_ack_processing (st : SState) (cum mask : Nat)
    (_hb : 1 ≤ st.base)
    (hble : st.base ≤ st.totalSegs + 1)
    (hN : st.totalSegs ≤ 2 ^ 32 - 2)
    (hinv : ∀ k, 1 ≤ k → k < st.base → st.acked k = true) :
    ackStep st cum mask = some (ackStepT st cum mask) ∧
    (∀ s, st.base ≤ s → s ≤ cum → s ≤ st.totalSegs →
      (ackStepT st cum mask).acked s = true) ∧
    (∀ i, i < 64 → mask.testBit i = true → cum + 1 + i ≤ st.totalSegs →
      (ackStepT st cum mask).acked (cum + 1 + i) = true) ∧
    (∀ k, st.acked k = true → (ackStepT st cum mask).acked k = true) ∧
    (∀ k, 1 ≤ k → (ackStepT st cum mask).acked k = true →
      st.acked k = true ∨ (st.base ≤ k ∧ k ≤ cum ∧ k ≤ st.totalSegs) ∨
      (∃ i, i < 64 ∧ mask.testBit i = true ∧ k = cum + 1 + i ∧
        k ≤ st.totalSegs)) ∧
    st.base ≤ (ackStepT st cum mask).base ∧
    (∀ j, 1 ≤ j → j < (ackStepT st cum mask).base →
      (ackStepT st cum mask).acked j = true) ∧
    ((ackStepT st cum mask).base ≤ st.totalSegs →
      (ackStepT st cum mask).acked ((ackStepT st cum mask).base) = false) ∧
    (ackStepT st cum mask).base ≤ st.totalSegs + 1 := by
  refine ⟨ackStep_eq_T st cum mask hN, ?_, ?_, ackStepT_acked_mono st cum mask, ?_,
    ackStepT_base_ge st cum mask,
    ackStepT_base_filled st cum mask hinv,
    ackStepT_base_stop st cum mask,
    ackStepT_base_bound st cum mask hble⟩
  · intro s h1 h2 h3
    exact (ackStepT_acked_iff st cum mask s).mpr (Or.inr (Or.inl ⟨h1, h2, h3⟩))
  · intro i hi hbit hle
    apply (ackStepT_acked_iff st cum mask (cum + 1 + i)).mpr
    refine Or.inr (Or.inr ⟨i, hi, hbit, ?_, hle⟩)
    exact Nat.mod_eq_of_lt (by omega)
  · intro k hk1 hk2
    rcases (ackStepT_acked_iff st cum mask k).mp hk2 with h | h | ⟨i, hi, hbit, hmod, hle⟩
    · exact Or.inl h
    · exact Or.inr (Or.inl h)
    · by_cases hnw : cum + 1 + i < 2 ^ 32
      · rw [Nat.mod_eq_of_lt hnw] at hmod
        exact Or.inr (Or.inr ⟨i, hi, hbit, hmod.symm, hle⟩)
      · rcases Nat.lt_or_ge k st.base with hlt | hge
        · exact Or.inl (hinv k hk1 hlt)
        · refine Or.inr (Or.inl ⟨hge, ?_, hle⟩)
          omega

theorem sender_ack_processing_witness :
    ((ackStep (initS 3) 1 2 = some (ackStepT (initS 3) 1 2)) ∧
     (∀ s, (initS 3).base ≤ s → s ≤ 1 → s ≤ (initS 3).totalSegs →
      (ackStepT (initS 3) 1 2).acked s = true) ∧
     (∀ i, i < 64 → Nat.testBit 2 i = true → 1 + 1 + i ≤ (initS 3).totalSegs →
      (ackStepT (initS 3) 1 2).acked (1 + 1 + i) = true) ∧
     (∀ k, (initS 3).acked k = true → (ackStepT (initS 3) 1 2).acked k = true) ∧
     (∀ k, 1 ≤ k → (ackStepT (initS 3) 1 2).acked k = true →
      (initS 3).acked k = true ∨
        ((initS 3).base ≤ k ∧ k ≤ 1 ∧ k ≤ (initS 3).totalSegs) ∨
        (∃ i, i < 64 ∧ Nat.testBit 2 i = true ∧ k = 1 + 1 + i ∧
          k ≤ (initS 3).totalSegs)) ∧
     (initS 3).base ≤ (ackStepT (initS 3) 1 2).base ∧
     (∀ j, 1 ≤ j → j < (ackStepT (initS 3) 1 2).base →
      (ackStepT (initS 3) 1 2).acked j = true) ∧
     ((ackStepT (initS 3) 1 2).base ≤ (initS 3).totalSegs →
      (ackStepT (initS 3) 1 2).acked ((ackStepT (initS 3) 1 2).base) = false) ∧
     (ackStepT (initS 3) 1 2).base ≤ (initS 3).totalSegs + 1) ∧
    (ackStepT (initS 3) 1 2).acked 3 = true ∧
    (ackStepT (initS 3) 1 2).base = 2 := by
  refine ⟨sender_ack_processing (initS 3) 1 2 (by decide) (by decide) (by decide) ?_,
    by decide, by decide⟩
  intro k hk1 hk2
  simp [initS] at hk2
  omega

/-- Claim C2: after an accepted START, along any sequence of received
datagrams, `have` bits are never cleared and `cum_ack` never decreases;
after each step `cum_ack` is the greatest `c` with `have[1..c]` all set;
and a DATA packet with a fresh in-range sequence and a valid length has its
payload written at offset `(s−1)·P`, `have[s]` set, and `cum_ack` advanced
while `have[cum_ack + 1]`. -/
theorem receiver_invariants_and_fresh_data (t p peer : Nat) (ds : List RInput)
    (d : RInput) :
    (∀ k, (rrun (startedState t p peer) ds).hv k = true →
      (rrun (startedState t p peer) (ds ++ [d])).hv k = true) ∧
    (rrun (startedState t p peer) ds).cumAck ≤
      (rrun (startedState t p peer) (ds ++ [d])).cumAck ∧
    (∀ j, 1 ≤ j → j ≤ (rrun (startedState t p peer) (ds ++ [d])).cumAck →
      (rrun (startedState t p peer) (ds ++ [d])).hv j = true) ∧
    (∀ c, (∀ j, 1 ≤ j → j ≤ c →
        (rrun (startedState t p peer) (ds ++ [d])).hv j = true) →
      c ≤ (rrun (startedState t p peer) (ds ++ [d])).cumAck) ∧
    (7 ≤ d.dgram.length → dgType d.dgram = 1 →
      1 ≤ dgSeq d.dgram →
      dgSeq d.dgram ≤ (rrun (startedState t p peer) ds).totalSegs →
      (rrun (startedState t p peer) ds).hv (dgSeq d.dgram) = false →
      dgLen d.dgram ≤ (rrun (startedState t p peer) ds).payloadMax →
      7 + dgLen d.dgram ≤ d.dgram.length →
      (∀ j, j < dgLen d.dgram →
        (rrun (startedState t p peer) (ds ++ [d])).sink
            ((dgSeq d.dgram - 1) * (rrun (startedState t p peer) ds).payloadMax + j)
          = d.dgram.getD (7 + j) 0) ∧
      (rrun (startedState t p peer) (ds ++ [d])).hv (dgSeq d.dgram) = true ∧
      (rrun (startedState t p peer) (ds ++ [d])).cumAck
        = advanceCum (rrun (startedState t p peer) (ds ++ [d])).hv
            (rrun (startedState t p peer) ds).totalSegs
            (rrun (startedState t p peer) ds).cumAck) := by
  have hinv : RInv (rrun (startedState t p peer) ds) :=
    rrun_inv _ (startedState_inv t p peer) ds
  have hstep := rstep_preserves d hinv
  have happ : rrun (startedState t p peer) (ds ++ [d])
      = (rstep (rrun (startedState t p peer) ds) d).1 := by
    rw [rrun_append]
    rfl
  rw [happ]
  refine ⟨hstep.2.1, hstep.2.2, hstep.1.filled, RInv_cum_max hstep.1, ?_⟩
  intro h7 hty h1 h2 hfresh hlen hwf
  rw [rstep_data_fresh _ d h7 hinv.started hty h1 h2 hfresh hlen]
  refine ⟨?_, ?_, rfl⟩
  · intro j hj
    show (if (dgSeq d.dgram - 1) * (rrun (startedState t p peer) ds).payloadMax
          ≤ (dgSeq d.dgram - 1) * (rrun (startedState t p peer) ds).payloadMax + j
        ∧ (dgSeq d.dgram - 1) * (rrun (startedState t p peer) ds).payloadMax + j
          < (dgSeq d.dgram - 1) * (rrun (startedState t p peer) ds).payloadMax
              + dgLen d.dgram then
        byteAt d.dgram d.stale
          (7 + ((dgSeq d.dgram - 1) * (rrun (startedState t p peer) ds).payloadMax + j
            - (dgSeq d.dgram - 1) * (rrun (startedState t p peer) ds).payloadMax))
      else (rrun (startedState t p peer) ds).sink
        ((dgSeq d.dgram - 1) * (rrun (startedState t p peer) ds).payloadMax + j))
      = d.dgram.getD (7 + j) 0
    rw [if_pos (by omega)]
    have hidx : (dgSeq d.dgram - 1) * (rrun (startedState t p peer) ds).payloadMax + j
        - (dgSeq d.dgram - 1) * (rrun (startedState t p peer) ds).payloadMax = j := by
      omega
    rw [hidx]
    unfold byteAt
    have hlt : 7 + j < d.dgram.length := by omega
    rw [List.getD_eq_getElem?_getD, List.getD_eq_getElem?_getD,
      List.getElem?_eq_getElem hlt]
    rfl
  · show (if dgSeq d.dgram = dgSeq d.dgram then true
        else (rrun (startedState t p peer) ds).hv (dgSeq d.dgram)) = true
    rw [if_pos rfl]

theorem receiver_invariants_witness :
    (rrun (startedState 600 512 1)
        ([] ++ [⟨9, [1, 0, 0, 0, 1, 0, 1, 42], fun _ => 0⟩])).hv 1 = true ∧
    (∀ j, j < dgLen [1, 0, 0, 0, 1, 0, 1, 42] →
      (rrun (startedState 600 512 1)
          ([] ++ [⟨9, [1, 0, 0, 0, 1, 0, 1, 42], fun _ => 0⟩])).sink
        ((dgSeq [1, 0, 0, 0, 1, 0, 1, 42] - 1)
            * (rrun (startedState 600 512 1) ([] : List RInput)).payloadMax + j)
        = ([1, 0, 0, 0, 1, 0, 1, 42] : List Nat).getD (7 + j) 0) ∧
    (rrun (startedState 600 512 1)
        ([] ++ [⟨9, [1, 0, 0, 0, 1, 0, 1, 42], fun _ => 0⟩])).cumAck
      = advanceCum
          (rrun (startedState 600 512 1)
            ([] ++ [⟨9, [1, 0, 0, 0, 1, 0, 1, 42], fun _ => 0⟩])).hv
          (rrun (startedState 600 512 1) ([] : List RInput)).totalSegs
          (rrun (startedState 600 512 1) ([] : List RInput)).cumAck := by
  have h := (receiver_invariants_and_fresh_data 600 512 1 []
      ⟨9, [1, 0, 0, 0, 1, 0, 1, 42], fun _ => 0⟩).2.2.2.2
    (by decide) (by decide) (by decide) (by decide) (by decide) (by decide)
    (by decide)
  exact ⟨h.2.1, h.1, h.2.2⟩

/-- Claim C7: in every honest run of the sender's bulk loop with retry cap
`R ≥ 1` on a session whose segment count stays below the `uint32` wrap
threshold, ACK processing always terminates, no transmission count ever
exceeds `R` (send failures, which advance `next_to_send` without touching
the counters, included); when the loop has exited (`base > N`, the point at
which END is transmitted) every segment was transmitted between 1 and `R`
times; the only abort exit code is 1; and the retransmission scan aborts
exactly when some unacked in-window segment has exhausted its retry
budget, without retransmitting that segment. -/
theorem sender_retry_bounds (total win retries rto : Nat) (hR : 1 ≤ retries)
    (htot : total ≤ 2 ^ 32 - 2) (es : List SEvent)
    (hgood : GoodRun win retries rto (initS total) es) :
    srun win retries rto (initS total) es ≠ none ∧
    (∀ st', srun win retries rto (initS total) es = some (.ok st') →
      (∀ k, st'.txCnt k ≤ retries) ∧
      (total < st'.base → ∀ k, 1 ≤ k → k ≤ total →
        1 ≤ st'.txCnt k ∧ st'.txCnt k ≤ retries)) ∧
    (∀ c, srun win retries rto (initS total) es = some (.error c) → c = 1) ∧
    (∀ (st : SState) (now : Nat),
      ((retxScan retries rto now st).2 = .error 1 ↔
        ∃ s, st.base ≤ s ∧ s < st.nextToSend ∧ 1 ≤ s ∧ s ≤ st.totalSegs ∧
          st.acked s = false ∧ retries ≤ st.txCnt s) ∧
      ((retxScan retries rto now st).2 = .error 1 →
        ∃ s, st.acked s = false ∧ retries ≤ st.txCnt s ∧
          s ∉ (retxScan retries rto now st).1)) := by
  have hmain := srun_inv win retries rto hR es (initS total)
    (SInv_initS retries total htot) hgood
  refine ⟨hmain.1, ?_, hmain.2.2, ?_⟩
  · intro st' hok
    have hS := hmain.2.1 st' hok
    refine ⟨hS.tx_le, ?_⟩
    intro hb k hk1 hk2
    have hk3 : k < st'.base := by omega
    have hacked := hS.below k hk1 hk3
    exact ⟨hS.acked_sent k hacked, hS.tx_le k⟩
  · intro st now
    constructor
    · constructor
      · intro herr
        obtain ⟨s, hsmem, h1, ht, ha, hc, _⟩ :=
          retxScanAux_abort retries rto now _ st (List.nodup_range' _ _) herr
        rw [List.mem_range'_1] at hsmem
        exact ⟨s, by omega, by omega, h1, ht, ha, hc⟩
      · rintro ⟨s, hbs, hsn, h1, ht, ha, hc⟩
        apply retxScanAux_abort_of_bad retries rto now _ st (List.nodup_range' _ _)
        exact ⟨s, List.mem_range'_1.mpr ⟨hbs, by omega⟩, h1, ht, ha, hc⟩
    · intro herr
      obtain ⟨s, _, _, _, ha, hc, hns⟩ :=
        retxScanAux_abort retries rto now _ st (List.nodup_range' _ _) herr
      exact ⟨s, ha, hc, hns⟩

theorem sender_retry_bounds_witness :
    (srun 2 1 5 (initS 1) [SEvent.emit 0 (fun _ => true)] ≠ none ∧
    (∀ st', srun 2 1 5 (initS 1) [SEvent.emit 0 (fun _ => true)]
        = some (.ok st') →
      (∀ k, st'.txCnt k ≤ 1) ∧
      (1 < st'.base → ∀ k, 1 ≤ k → k ≤ 1 →
        1 ≤ st'.txCnt k ∧ st'.txCnt k ≤ 1)) ∧
    (∀ c, srun 2 1 5 (initS 1) [SEvent.emit 0 (fun _ => true)]
        = some (.error c) → c = 1) ∧
    (∀ (st : SState) (now : Nat),
      ((retxScan 1 5 now st).2 = .error 1 ↔
        ∃ s, st.base ≤ s ∧ s < st.nextToSend ∧ 1 ≤ s ∧ s ≤ st.totalSegs ∧
          st.acked s = false ∧ 1 ≤ st.txCnt s) ∧
      ((retxScan 1 5 now st).2 = .error 1 →
        ∃ s, st.acked s = false ∧ 1 ≤ st.txCnt s ∧
          s ∉ (retxScan 1 5 now st).1))) ∧
    (match srun 2 1 5 (initS 1) [SEvent.emit 0 (fun _ => true)] with
     | some (.ok st) => st.txCnt 1
     | _ => 99) = 1 :=
  ⟨sender_retry_bounds 1 2 1 5 (by decide) (by decide)
      [SEvent.emit 0 (fun _ => true)] ⟨trivial, trivial⟩,
   by decide⟩

/-- Claim C1 (code bug): neither program checks the header's `len` field
against the number of bytes actually received.  On a 7-byte DATA datagram
whose `len` field claims 5 payload bytes, the receiver copies 5 stale
buffer bytes (here 170) into the sink, marks the segment received and
emits an ACK instead of rejecting the datagram; on a 7-byte ACK datagram
whose `len` field claims 12, the sender parses `cum` and `mask` out of
stale buffer bytes instead of rejecting it. -/
theorem short_datagram_overread :
    ([1, 0, 0, 0, 1, 0, 5] : List Nat).length = 7 ∧
    dgLen [1, 0, 0, 0, 1, 0, 5] = 5 ∧
    (rstep (startedState 600 512 1)
        ⟨9, [1, 0, 0, 0, 1, 0, 5], fun _ => 170⟩).1.hv 1 = true ∧
    (rstep (startedState 600 512 1)
        ⟨9, [1, 0, 0, 0, 1, 0, 5], fun _ => 170⟩).1.sink 0 = 170 ∧
    (rstep (startedState 600 512 1)
        ⟨9, [1, 0, 0, 0, 1, 0, 5], fun _ => 170⟩).2 = [⟨9, 1, 0⟩] ∧
    ([16, 0, 0, 0, 0, 0, 12] : List Nat).length = 7 ∧
    dgLen [16, 0, 0, 0, 0, 0, 12] = 12 ∧
    senderParseAck [16, 0, 0, 0, 0, 0, 12] (fun i => if i = 10 then 5 else 0)
      = some (5, 0) := by
  decide

theorem segmentation_partition_witness :
    (totalSegsOf 600 512 = (600 + 512 - 1) / 512 ∧
     (∀ k, 1 ≤ k → k < totalSegsOf 600 512 → segLen 600 512 k = 512) ∧
     1 ≤ segLen 600 512 (totalSegsOf 600 512) ∧
     segLen 600 512 (totalSegsOf 600 512) ≤ 512 ∧
     (∀ k, 1 ≤ k → k ≤ totalSegsOf 600 512 →
       segOffset 512 k + segLen 600 512 k ≤ 600) ∧
     (∀ b, b < 600 → ∃ k, (1 ≤ k ∧ k ≤ totalSegsOf 600 512 ∧
       segOffset 512 k ≤ b ∧ b < segOffset 512 k + segLen 600 512 k) ∧
       (∀ k', 1 ≤ k' → k' ≤ totalSegsOf 600 512 → segOffset 512 k' ≤ b →
         b < segOffset 512 k' + segLen 600 512 k' → k' = k))) ∧
    totalSegsOf 600 512 = 2 ∧ segLen 600 512 2 = 88 :=
  ⟨segmentation_partition 600 512 (by decide) (by decide) (by decide)
      (by norm_num),
   by decide, by decide⟩
